import Mathlib

/-!
Verification development for the multi-agent orchestration pipeline of
`src/index.tsx` (Gemini-Heavy).  The definitions below are a shallow
embedding of the code: pure functions mirror the source expressions, the
external completion service (`ai.models.generateContent`), the JavaScript
`new Function` parser and the Skulpt Python interpreter are oracle
parameters, and the sequential `await` structure of `runOrchestration` is
modelled by explicit state passing of the list of issued requests together
with `Except`-style failure.
-/

deriving instance DecidableEq for Except

/-! ### JavaScript string primitives used by the source -/

/-- JS `String.prototype.trim` whitespace class (the ASCII part actually
relevant to the queries handled here). -/
def jsWhitespaceChar (c : Char) : Bool :=
  c = ' ' || c = '\t' || c = '\n' || c = '\r' || c = Char.ofNat 11 || c = Char.ofNat 12

/-- JS `inputText.trim()` (source line 454): strip whitespace from both ends. -/
def jsTrim (s : String) : String :=
  String.mk ((((s.data.dropWhile jsWhitespaceChar).reverse).dropWhile jsWhitespaceChar).reverse)

/-- JS `language.toLowerCase()` (source line 405), on the ASCII language tags
the validator dispatches on. -/
def jsToLower (s : String) : String :=
  String.mk (s.data.map Char.toLower)

/-- JS `Array.prototype.join(sep)` on an array of strings. -/
def joinWith (sep : String) : List String → String
  | [] => ""
  | [x] => x
  | x :: y :: xs => x ++ sep ++ joinWith sep (y :: xs)

/-! ### Data model (source lines 16-38) -/

/-- `inlineData` payload of a `Part` (base64 data plus MIME type). -/
structure InlineData where
  mimeType : String
  data : String
deriving DecidableEq, Repr

/-- A message `Part`: optional text, optional inline binary data
(source lines 16-22).  Named `MsgPart` here because `Part` is taken by the
ambient library. -/
structure MsgPart where
  text : Option String
  inlineData : Option InlineData
deriving DecidableEq, Repr

def textPart (s : String) : MsgPart := ⟨some s, none⟩

def filePart (d : InlineData) : MsgPart := ⟨none, some d⟩

/-- Message role: `'user' | 'model'` (source line 25). -/
inductive Role where
  | user : Role
  | model : Role
deriving DecidableEq, Repr

/-- A conversation turn (source lines 24-27; also the `Content` values sent
to the API). -/
structure Message where
  role : Role
  parts : List MsgPart
deriving DecidableEq, Repr

/-- The attachment held by the UI before submission (source line 314). -/
structure AttachedFile where
  data : String
  mimeType : String
  name : String
deriving DecidableEq, Repr

/-- One request to `ai.models.generateContent`
(`{model, contents, config: {systemInstruction}}`). -/
structure GenRequest where
  model : String
  contents : List Message
  systemInstruction : String
deriving DecidableEq, Repr

/-! ### Constants (source lines 8-14, 677) -/

def MODEL_NAME : String := "gemini-2.5-pro"

def INITIAL_SYSTEM_INSTRUCTION : String :=
  "You are a foundational AI agent. Your goal is to provide a strong, initial response to the user's query, whatever the topic. Break down the request, identify the core requirements, and generate a clear, well-structured starting point. This could be an outline, a basic explanation, or a foundational concept.\n\n**If the user's request involves coding:** Provide a foundational code structure or algorithm. Your code should be clean, well-commented, and directly address the core problem. Explain your approach briefly. Your response is the first step for a team of AI agents, so clarity and correctness are paramount."

def REFINEMENT_SYSTEM_INSTRUCTION : String :=
  "You are a critical analysis and refinement AI. You will receive an initial response. Your task is to critically evaluate it. Identify logical fallacies, find missing details, consider alternative perspectives, and improve the overall quality and accuracy of the response. Explain the specific changes you made and why they are improvements.\n\n**If the content is code:** Your task is to identify bugs, logical errors, edge cases, or areas for optimization. Refactor and improve the provided code, explaining the specific changes you made and why they are necessary. Your goal is to produce a more robust and efficient version of the code."

def CRITIQUE_AGENT_SYSTEM_INSTRUCTION : String :=
  "You are a critical reviewer. You will be given an initial user query and a proposed response from another AI agent. Your sole task is to analyze the response and provide a concise, constructive critique. Identify specific weaknesses, logical fallacies, missing information, or potential inaccuracies. Do NOT write your own full response to the user. Your output should be ONLY the critique."

def REVISION_AGENT_SYSTEM_INSTRUCTION : String :=
  "You are a revision specialist. You will receive your original response, a user's query, and a critique of your response from a peer AI. Your task is to generate a new, improved final version of your response that directly addresses the points raised in the critique. Integrate the valid feedback to make your answer more accurate, complete, and well-reasoned."

def SYNTHESIZER_SYSTEM_INSTRUCTION : String :=
  "You are a master synthesizer AI. You will receive multiple refined responses. Your task is to analyze, compare, and merge the best elements from each to create a single, comprehensive, and polished final answer. Ensure the final response is cohesive, well-organized, and directly addresses all aspects of the user's original query.\n\n**If the responses are code:** Synthesize the best elements from each solution to create a single, production-quality final version. Ensure the final code is complete and runnable, including all necessary boilerplate (imports, main function, etc.). Add concise comments where necessary. Your output should BE the final code block, with a brief explanation of the overall design."

def FINAL_REVIEW_SYSTEM_INSTRUCTION : String :=
  "You are a final reviewer AI, the last quality gate before a response is sent to the user. You will receive a fully synthesized response. Your task is to perform a final check for clarity, coherence, conciseness, and tone. Make minor edits to fix grammatical errors, improve wording, and ensure the answer is polished and directly addresses the user's query. Do NOT make substantial changes or add new information. Your output should be the final, polished text."

/-- The generic apology appended on any failure (source line 677). -/
def FAILURE_MESSAGE_TEXT : String := "Sorry, I encountered an error. Please try again."

/-! ### Syntax Validator (`checkCodeSyntax`, source lines 404-436)

`new Function(code)` and the Skulpt interpreter are external engines; they
enter the model as oracles.  `jsNew code = none` models `new Function(code)`
succeeding, `some msg` models it throwing with `e.message = msg`.  `window.Sk`
is either absent or a loaded interpreter; a loaded interpreter is the
function the source calls through `Sk.misceval.asyncToPromise (() =>
Sk.importMainWithBody("<stdin>", false, code, true))` — note that this is the
*same* entry point the run-in-canvas executor uses (source lines 129-131),
i.e. it imports (executes) the module; `run code = none` models the promise
resolving, `some msg` models it rejecting with `e.toString() = msg`. -/

/-- The state of `window.Sk`: the Skulpt interpreter is loaded or not. -/
inductive SkState where
  | absent : SkState
  | loaded : (String → Option String) → SkState

/-- `checkCodeSyntax(language, code)` (source lines 404-436). -/
def checkCodeSyntax (sk : SkState) (jsNew : String → Option String)
    (language code : String) : Option String :=
  let l := jsToLower language
  if l = "javascript" ∨ l = "js" then
    jsNew code
  else if l = "python" ∨ l = "py" then
    match sk with
    | SkState.absent => some "Skulpt (Python interpreter) not loaded."
    | SkState.loaded run => run code
  else
    none

/-! ### The fenced-code-block scanner

The source extracts code blocks with the global regex
`/(three backticks)(\w+)\n([\s\S]*?)(three backticks)/g` executed repeatedly
(source lines 642-646).  Matching such a pattern at a position means: the
literal fence, then a maximal nonempty run of word characters that must be
followed by a newline (`\w` excludes the newline, so greedy matching plus
backtracking is equivalent to the maximal run), then a lazy body ending at
the *first* following fence.  `exec` on a `g` regex yields the leftmost
match, then continues searching from the end of that match.  `scanGo`
replays exactly that loop; the fuel argument (one unit per scanned
position) makes the recursion structural, and `s.length` units always
suffice since every step consumes at least one character. -/

/-- The three-backtick fence, as characters. -/
def fenceCs : List Char := "```".data

/-- JS regex `\w`: `[A-Za-z0-9_]`. -/
def isWordChar (c : Char) : Bool := c.isAlpha || c.isDigit || c = '_'

/-- One regex match: the whole matched text (`match[0]`), the language
capture (`match[1]`), the body capture (`match[2]`), and the text remaining
after the match (from which the `g`-regex continues). -/
structure FencedBlock where
  full : List Char
  lang : List Char
  code : List Char
  rest : List Char
deriving DecidableEq, Repr

/-- Split at the first occurrence of the fence: `some (body, rest)` with
`u = body ++ fenceCs ++ rest` and `body` shortest (the lazy `[\s\S]*?`). -/
def findFenceSplit : List Char → Option (List Char × List Char)
  | [] => none
  | c :: cs =>
    if fenceCs.isPrefixOf (c :: cs) then some ([], cs.drop 2)
    else
      match findFenceSplit cs with
      | some (p, q) => some (c :: p, q)
      | none => none

/-- Try to match the code-block regex at the start of `s`. -/
def matchFenceAt (s : List Char) : Option FencedBlock :=
  if fenceCs.isPrefixOf s then
    let t := s.drop 3
    let w := t.takeWhile isWordChar
    if w = [] then none
    else
      match t.drop w.length with
      | '\n' :: u =>
        match findFenceSplit u with
        | some (body, rest) =>
          some ⟨fenceCs ++ w ++ '\n' :: (body ++ fenceCs), w, body, rest⟩
        | none => none
      | _ => none
  else none

/-- The `exec` loop: leftmost match, emit, continue after it; otherwise
advance one position. -/
def scanGo : ℕ → List Char → List FencedBlock
  | 0, _ => []
  | Nat.succ f, s =>
    match matchFenceAt s with
    | some b => b :: scanGo f b.rest
    | none =>
      match s with
      | [] => []
      | _ :: cs => scanGo f cs

/-- All matches of the code-block regex over `s`, in document order. -/
def scanCodeBlocks (s : List Char) : List FencedBlock := scanGo s.length s

/-! ### JS `String.prototype.replace(searchString, replacement)`

Source line 666 replaces the matched block with
`finalSynthesizerResponseText.replace(match[0], correctedCode)`.  With a
string pattern, JS replaces the *first* occurrence only, and the replacement
string is processed for the substitution patterns `$$`, `$&` (the matched
substring), backtick-dollar (the text before the match) and `$'` (the text
after the match); any other `$` is kept literally. -/

/-- Split `s` at the first occurrence of `pat`:
`some (pre, post)` with `s = pre ++ pat ++ post`, `pre` shortest. -/
def splitOcc (pat : List Char) : List Char → Option (List Char × List Char)
  | [] => if pat = [] then some ([], []) else none
  | c :: cs =>
    if pat.isPrefixOf (c :: cs) then some ([], (c :: cs).drop pat.length)
    else
      match splitOcc pat cs with
      | some (p, q) => some (c :: p, q)
      | none => none

def dollarC : Char := '$'

def amperC : Char := '&'

def backtickC : Char := Char.ofNat 96

def quoteC : Char := Char.ofNat 39

/-- ECMAScript `GetSubstitution` for a string-valued `searchValue`:
expand `$$`, `$&`, backtick-dollar and `$'` in the replacement. -/
def getSubstitution (matched before after : List Char) : List Char → List Char
  | [] => []
  | [c] => [c]
  | c :: d :: rest =>
    if c = dollarC then
      if d = dollarC then dollarC :: getSubstitution matched before after rest
      else if d = amperC then matched ++ getSubstitution matched before after rest
      else if d = backtickC then before ++ getSubstitution matched before after rest
      else if d = quoteC then after ++ getSubstitution matched before after rest
      else dollarC :: getSubstitution matched before after (d :: rest)
    else c :: getSubstitution matched before after (d :: rest)

/-- JS `s.replace(pat, repl)` with string arguments: replace the first
occurrence of `pat`, with substitution patterns expanded in `repl`;
return `s` unchanged when `pat` does not occur. -/
def replaceJS (s pat repl : List Char) : List Char :=
  match splitOcc pat s with
  | none => s
  | some (pre, post) => pre ++ getSubstitution pat pre post repl ++ post

/-! ### Sequential model of the `async` orchestration

`OrchM α` threads the list of requests issued so far and an
`Except`-failure: `await`ing a rejected promise aborts the remaining body,
exactly like `obind`.  Every request of a stage is dispatched (logged)
before the stage's results are awaited, mirroring `Array.map` creating all
promises before `Promise.all`.  The external service is an oracle indexed
by the call sequence number, so distinct calls may return distinct texts or
fail individually. -/

def Oracle : Type := ℕ → GenRequest → Except Unit String

def OrchM (α : Type) : Type := List GenRequest → Except Unit α × List GenRequest

def opure {α : Type} (a : α) : OrchM α := fun log => (Except.ok a, log)

def obind {α β : Type} (x : OrchM α) (f : α → OrchM β) : OrchM β := fun log =>
  match x log with
  | (Except.ok a, l) => f a l
  | (Except.error e, l) => (Except.error e, l)

/-- One awaited `generateContent` call. -/
def callGen (gen : Oracle) (r : GenRequest) : OrchM String := fun log =>
  (gen log.length r, log ++ [r])

/-- Await the units of one stage in input order; the whole stage fails if
any unit fails (`Promise.all`). -/
def runStageGo (gen : Oracle) (base : ℕ) : List GenRequest → Except Unit (List String)
  | [] => Except.ok []
  | r :: rs =>
    match gen base r, runStageGo gen (base + 1) rs with
    | Except.ok t, Except.ok ts => Except.ok (t :: ts)
    | Except.error e, _ => Except.error e
    | Except.ok _, Except.error e => Except.error e

/-- Dispatch a whole fan-out stage: all requests are issued (logged), then
all results awaited. -/
def runStage (gen : Oracle) (reqs : List GenRequest) : OrchM (List String) := fun log =>
  (runStageGo gen log.length reqs, log ++ reqs)

/-! ### Context Builder (the per-stage prompt strings, source lines 500-638) -/

/-- `\n\n---INTERNAL CONTEXT---\n` prefixed context part appended to the
user's parts for the internal stage prompts. -/
def internalCtxPart (ctx : String) : MsgPart :=
  textPart ("\n\n---INTERNAL CONTEXT---\n" ++ ctx)

/-- `initialAnswers.filter((_, i) => i !== index)` (source line 518). -/
def otherAnswersOf (initialAnswers : List String) (index : ℕ) : List String :=
  ((initialAnswers.enum).filter (fun p => p.1 != index)).map (fun p => p.2)

/-- `otherAnswers.map((ans, i) => `${i + 1}. "${ans}"`).join('\n')`
(source line 519). -/
def numberedOthers (others : List String) : String :=
  joinWith "\n" ((others.enum).map (fun p => toString (p.1 + 1) ++ ". \"" ++ p.2 ++ "\""))

/-- The refinement context for unit `index` (source line 520). -/
def refinementContext (initialAnswers : List String) (index : ℕ) : String :=
  "The response I'm working with is: \"" ++ initialAnswers.getD index "" ++
    "\". The other agents responded with:\n" ++
    numberedOthers (otherAnswersOf initialAnswers index) ++
    "\n\nBased on this context, critically re-evaluate and provide a new, improved response to the original query."

/-- `(index + 1) % numAgents`: which unit's output the critique authored by
unit `index` reviews (source line 543). -/
def critiquePeerIdx (numAgents index : ℕ) : ℕ := (index + 1) % numAgents

/-- `(index - 1 + numAgents) % numAgents` in JS (signed) arithmetic: whose
critique the revision of unit `index` consumes (source line 564). -/
def revisionCritIdx (numAgents index : ℕ) : ℕ :=
  (((index : ℤ) - 1 + (numAgents : ℤ)) % (numAgents : ℤ)).toNat

/-- The critique context for unit `index` (source line 544). -/
def critiqueContext (userInput : String) (refinedAnswers : List String)
    (numAgents index : ℕ) : String :=
  "The user's query was: \"" ++ userInput ++
    "\". Here is the response to critique:\n\n---RESPONSE---\n" ++
    refinedAnswers.getD (critiquePeerIdx numAgents index) ""

/-- The revision context for unit `index` (source line 565). -/
def revisionContext (refinedAnswers critiques : List String)
    (numAgents index : ℕ) : String :=
  "Here was your original response:\n\n---ORIGINAL---\n" ++
    refinedAnswers.getD index "" ++
    "\n\nHere is a critique from a peer:\n\n---CRITIQUE---\n" ++
    critiques.getD (revisionCritIdx numAgents index) "" ++
    "\n\nBased on the critique, provide an improved response to the original query."

/-- `answers.map((ans, i) => `Refined ${i+1}:\n"${ans}"`).join('\n\n')`
(source lines 590 and 632). -/
def refinedList (answers : List String) : String :=
  joinWith "\n\n"
    ((answers.enum).map (fun p => "Refined " ++ toString (p.1 + 1) ++ ":\n\"" ++ p.2 ++ "\""))

/-- Parallel synthesis context, Deep mode (source line 590). -/
def parallelSynthContext (answers : List String) : String :=
  "Here are 3 refined responses. Synthesize them into the best single, cohesive answer.\n\n" ++
    refinedList answers

/-- Standard synthesis context (source line 632). -/
def stdSynthContext (numAgents : ℕ) (answers : List String) : String :=
  "Here are the " ++ toString numAgents ++
    " refined responses. Synthesize them into the best single, final answer.\n\n" ++
    refinedList answers

/-- Final synthesis context, Deep mode (source line 608). -/
def finalSynthContext (r0 r1 : String) : String :=
  "Here are two synthesized responses from different agent groups. Your task is to analyze, compare, and merge the best elements from each to create a single, master response that is comprehensive and polished.\n\n---SYNTHESIZED RESPONSE 1---\n" ++
    r0 ++ "\n\n---SYNTHESIZED RESPONSE 2---\n" ++ r1

/-- Final review context, Deep mode (source line 618). -/
def reviewContext (userInput synthesizedText : String) : String :=
  "Perform a final quality review on the following response. Check for clarity, coherence, grammar, and tone. Make only minor edits to polish the text. The user's original query was: \"" ++
    userInput ++ "\".\n\n---RESPONSE TO REVIEW---\n" ++ synthesizedText

/-- The dynamic code-correction system instruction (source lines 653-656). -/
def verifierInstr (err : String) : String :=
  "You are a code correction AI. You will be given a block of code that has a syntax error. Your SOLE task is to fix the error and return only the complete, corrected, runnable code block. Do NOT add any explanation or surrounding text.\n---\nERROR MESSAGE: " ++
    err ++ "\n---"

/-! ### Per-stage requests -/

/-- Initial-stage requests: `numAgents` identical prompts (source lines 503-511). -/
def initialReqs (numAgents : ℕ) (hist : List Message) (currentUserTurn : Message) :
    List GenRequest :=
  List.replicate numAgents ⟨MODEL_NAME, hist ++ [currentUserTurn], INITIAL_SYSTEM_INSTRUCTION⟩

def refinementReq (hist : List Message) (apiParts : List MsgPart)
    (initialAnswers : List String) (index : ℕ) : GenRequest :=
  ⟨MODEL_NAME,
   hist ++ [⟨Role.user, apiParts ++ [internalCtxPart (refinementContext initialAnswers index)]⟩],
   REFINEMENT_SYSTEM_INSTRUCTION⟩

def refinementReqs (hist : List Message) (apiParts : List MsgPart)
    (initialAnswers : List String) : List GenRequest :=
  (initialAnswers.enum).map (fun p => refinementReq hist apiParts initialAnswers p.1)

def critiqueReq (hist : List Message) (apiParts : List MsgPart) (userInput : String)
    (refinedAnswers : List String) (numAgents index : ℕ) : GenRequest :=
  ⟨MODEL_NAME,
   hist ++ [⟨Role.user, apiParts ++ [internalCtxPart (critiqueContext userInput refinedAnswers numAgents index)]⟩],
   CRITIQUE_AGENT_SYSTEM_INSTRUCTION⟩

def critiqueReqs (hist : List Message) (apiParts : List MsgPart) (userInput : String)
    (refinedAnswers : List String) (numAgents : ℕ) : List GenRequest :=
  (refinedAnswers.enum).map
    (fun p => critiqueReq hist apiParts userInput refinedAnswers numAgents p.1)

def revisionReq (hist : List Message) (apiParts : List MsgPart)
    (refinedAnswers critiques : List String) (numAgents index : ℕ) : GenRequest :=
  ⟨MODEL_NAME,
   hist ++ [⟨Role.user, apiParts ++ [internalCtxPart (revisionContext refinedAnswers critiques numAgents index)]⟩],
   REVISION_AGENT_SYSTEM_INSTRUCTION⟩

def revisionReqs (hist : List Message) (apiParts : List MsgPart)
    (refinedAnswers critiques : List String) (numAgents : ℕ) : List GenRequest :=
  (refinedAnswers.enum).map
    (fun p => revisionReq hist apiParts refinedAnswers critiques numAgents p.1)

def synthesizerReq (hist : List Message) (apiParts : List MsgPart)
    (answers : List String) : GenRequest :=
  ⟨MODEL_NAME,
   hist ++ [⟨Role.user, apiParts ++ [internalCtxPart (parallelSynthContext answers)]⟩],
   SYNTHESIZER_SYSTEM_INSTRUCTION⟩

def finalSynthesizerReq (hist : List Message) (apiParts : List MsgPart)
    (r0 r1 : String) : GenRequest :=
  ⟨MODEL_NAME,
   hist ++ [⟨Role.user, apiParts ++ [internalCtxPart (finalSynthContext r0 r1)]⟩],
   SYNTHESIZER_SYSTEM_INSTRUCTION⟩

def reviewReq (hist : List Message) (userInput synthesizedText : String) : GenRequest :=
  ⟨MODEL_NAME,
   hist ++ [⟨Role.user, [textPart (reviewContext userInput synthesizedText)]⟩],
   FINAL_REVIEW_SYSTEM_INSTRUCTION⟩

def stdSynthesizerReq (hist : List Message) (apiParts : List MsgPart)
    (numAgents : ℕ) (answers : List String) : GenRequest :=
  ⟨MODEL_NAME,
   hist ++ [⟨Role.user, apiParts ++ [internalCtxPart (stdSynthContext numAgents answers)]⟩],
   SYNTHESIZER_SYSTEM_INSTRUCTION⟩

def verifierReq (hist : List Message) (lang code err : String) : GenRequest :=
  ⟨MODEL_NAME,
   hist ++ [⟨Role.user, [textPart ("Correct the following code:\n\n```" ++ lang ++ "\n" ++ code ++ "\n```")]⟩],
   verifierInstr err⟩

/-! ### The code-repair sub-flow (source lines 641-670) -/

/-- The `while` loop scans matches in document order, stops at the first one
whose `checkCodeSyntax` result is truthy (`hasCorrected` ends the loop after
one correction, so later blocks are never even validated). -/
def firstInvalidBlock (sk : SkState) (jsNew : String → Option String) :
    List FencedBlock → Option (FencedBlock × String)
  | [] => none
  | b :: bs =>
    match checkCodeSyntax sk jsNew (String.mk b.lang) (String.mk b.code) with
    | some err => some (b, err)
    | none => firstInvalidBlock sk jsNew bs

/-- The repair sub-flow over a candidate final text: at most one correction
request, and the single `replace` of source line 666. -/
def runRepair (gen : Oracle) (sk : SkState) (jsNew : String → Option String)
    (hist : List Message) (text : String) : OrchM String :=
  match firstInvalidBlock sk jsNew (scanCodeBlocks text.data) with
  | none => opure text
  | some (b, err) =>
    obind (callGen gen (verifierReq hist (String.mk b.lang) (String.mk b.code) err))
      (fun correctedCode =>
        opure (String.mk (replaceJS text.data b.full correctedCode.data)))

/-! ### The Orchestrator (source lines 453-681) -/

/-- The length of the standard-mode instruction sequence. -/
def stdInstrLen (numAgents : ℕ) : ℕ := numAgents + numAgents + 1

/-- The length of the Deep-mode instruction sequence. -/
def deepInstrLen (numAgents : ℕ) : ℕ := numAgents + numAgents + numAgents + numAgents + 4

/-- `apiParts` (source lines 460-471): the attachment part first (when
present), then the text part (when the trimmed input is nonempty). -/
def mkApiParts (userInput : String) (attachedFile : Option AttachedFile) : List MsgPart :=
  (match attachedFile with
   | some f => [filePart ⟨f.mimeType, f.data⟩]
   | none => []) ++
  (if userInput = "" then [] else [textPart userInput])

/-- The staged body of `runOrchestration` (the `try` block less message
assembly), returning the final response text. -/
def orchBody (gen : Oracle) (sk : SkState) (jsNew : String → Option String)
    (numAgents : ℕ) (isDeepThink : Bool) (userInput : String)
    (apiParts : List MsgPart) (hist : List Message) : OrchM String :=
  let currentUserTurn : Message := ⟨Role.user, apiParts⟩
  obind (runStage gen (initialReqs numAgents hist currentUserTurn)) (fun initialAnswers =>
  obind (runStage gen (refinementReqs hist apiParts initialAnswers)) (fun refinedAnswers =>
  obind
    (if isDeepThink then
      obind (runStage gen (critiqueReqs hist apiParts userInput refinedAnswers numAgents))
        (fun critiques =>
          runStage gen (revisionReqs hist apiParts refinedAnswers critiques numAgents))
    else opure refinedAnswers)
    (fun answersForSynthesis =>
  obind
    (if isDeepThink then
      obind (runStage gen
          [synthesizerReq hist apiParts (answersForSynthesis.take 3),
           synthesizerReq hist apiParts ((answersForSynthesis.drop 3).take 3)])
        (fun synthesizedResults =>
      obind (callGen gen
          (finalSynthesizerReq hist apiParts
            (synthesizedResults.getD 0 "") (synthesizedResults.getD 1 "")))
        (fun synthesizedText =>
          callGen gen (reviewReq hist userInput synthesizedText)))
    else
      callGen gen (stdSynthesizerReq hist apiParts numAgents answersForSynthesis))
    (fun finalSynthesizerResponseText =>
  runRepair gen sk jsNew hist finalSynthesizerResponseText))))

/-- `runOrchestration(numAgents, isDeepThink)`: guard, message assembly, the
staged body, and the `catch` that appends the generic apology.  Returns the
conversation after the run together with every request issued. -/
def runOrchestration (gen : Oracle) (sk : SkState) (jsNew : String → Option String)
    (numAgents : ℕ) (isDeepThink : Bool) (inputText : String)
    (attachedFile : Option AttachedFile) (messages : List Message) :
    List Message × List GenRequest :=
  let userInput := jsTrim inputText
  if userInput = "" ∧ attachedFile = none then (messages, [])
  else
    let apiParts := mkApiParts userInput attachedFile
    let userMessage : Message := ⟨Role.user, apiParts⟩
    let currentMessages := messages ++ [userMessage]
    -- `currentMessages.slice(0, -1).map(...)` (source lines 490-496): the map
    -- rebuilds each part as `{...text && {text}, ...inlineData && {inlineData}}`,
    -- which on this data model is the identity (it could only drop a `text`
    -- key for an empty-string text part, which no message ever carries: text
    -- parts are only pushed for nonempty user input or as whole answers).
    let mainChatHistory := currentMessages.dropLast
    match orchBody gen sk jsNew numAgents isDeepThink userInput apiParts mainChatHistory [] with
    | (Except.ok finalResponseText, log) =>
      (currentMessages ++ [⟨Role.model, [textPart finalResponseText]⟩], log)
    | (Except.error _, log) =>
      (currentMessages ++ [⟨Role.model, [textPart FAILURE_MESSAGE_TEXT]⟩], log)

/-! ### Progress State (source lines 29-38, 477-486, and the per-unit
`setProgress` updates) -/

structure ProgressState where
  initial : List Bool
  refining : List Bool
  critiquing : List Bool
  revising : List Bool
  synthesizing : List Bool
  finalSynthesizing : Bool
  reviewing : Bool
  verifying : Bool
deriving DecidableEq, Repr

/-- The `setProgress` initialisation at orchestration start
(source lines 477-486). -/
def mkInitProgress (numAgents : ℕ) (isDeepThink : Bool) : ProgressState :=
  ⟨List.replicate numAgents false,
   List.replicate numAgents false,
   if isDeepThink then List.replicate numAgents false else [],
   if isDeepThink then List.replicate numAgents false else [],
   if isDeepThink then [false, false] else [false],
   false, false, false⟩

/-- `xs.map((s, idx) => idx === i ? true : s)`: the index-keyed functional
update used by every per-unit completion (source lines 508, 529, 552, 573, 596). -/
def setFlagAt (l : List Bool) (i : ℕ) : List Bool :=
  List.mapIdx (fun idx s => if idx = i then true else s) l

/-- The possible `setProgress` updates fired during a run, one constructor
per update lambda in the source. -/
inductive PUpd where
  | initialDone : ℕ → PUpd
  | refiningDone : ℕ → PUpd
  | critiquingDone : ℕ → PUpd
  | revisingDone : ℕ → PUpd
  | synthesizingDone : ℕ → PUpd
  | synthesizingStd : PUpd
  | finalSynthesizingDone : PUpd
  | reviewingDone : PUpd
  | verifyingDone : PUpd
deriving DecidableEq, Repr

/-- Apply one `setProgress` functional update. -/
def applyUpd : PUpd → ProgressState → ProgressState
  | PUpd.initialDone i, p => { p with initial := setFlagAt p.initial i }
  | PUpd.refiningDone i, p => { p with refining := setFlagAt p.refining i }
  | PUpd.critiquingDone i, p => { p with critiquing := setFlagAt p.critiquing i }
  | PUpd.revisingDone i, p => { p with revising := setFlagAt p.revising i }
  | PUpd.synthesizingDone i, p => { p with synthesizing := setFlagAt p.synthesizing i }
  | PUpd.synthesizingStd, p => { p with synthesizing := [true] }
  | PUpd.finalSynthesizingDone, p => { p with finalSynthesizing := true }
  | PUpd.reviewingDone, p => { p with reviewing := true }
  | PUpd.verifyingDone, p => { p with verifying := true }

/-- Apply a list of updates in (any) completion order. -/
def applyUpds (l : List PUpd) (p : ProgressState) : ProgressState :=
  l.foldl (fun q u => applyUpd u q) p

/-- Which updates a run with the given mode can fire (unit index within the
stage's width; `synthesizingStd` fires only in standard mode). -/
def validUpd (numAgents : ℕ) (isDeepThink : Bool) : PUpd → Prop
  | PUpd.initialDone i => i < numAgents
  | PUpd.refiningDone i => i < numAgents
  | PUpd.critiquingDone i => isDeepThink = true ∧ i < numAgents
  | PUpd.revisingDone i => isDeepThink = true ∧ i < numAgents
  | PUpd.synthesizingDone i => isDeepThink = true ∧ i < 2
  | PUpd.synthesizingStd => isDeepThink = false
  | PUpd.finalSynthesizingDone => True
  | PUpd.reviewingDone => True
  | PUpd.verifyingDone => True

/-- The boolean an update targets. -/
def flagOf : PUpd → ProgressState → Bool
  | PUpd.initialDone i, p => p.initial.getD i false
  | PUpd.refiningDone i, p => p.refining.getD i false
  | PUpd.critiquingDone i, p => p.critiquing.getD i false
  | PUpd.revisingDone i, p => p.revising.getD i false
  | PUpd.synthesizingDone i, p => p.synthesizing.getD i false
  | PUpd.synthesizingStd, p => p.synthesizing.getD 0 false
  | PUpd.finalSynthesizingDone, p => p.finalSynthesizing
  | PUpd.reviewingDone, p => p.reviewing
  | PUpd.verifyingDone, p => p.verifying

/-- The stage widths of the progress lists for the given mode (the shape
`mkInitProgress` establishes and every update preserves). -/
def progShape (numAgents : ℕ) (isDeepThink : Bool) (p : ProgressState) : Prop :=
  p.initial.length = numAgents ∧
  p.refining.length = numAgents ∧
  p.critiquing.length = (if isDeepThink then numAgents else 0) ∧
  p.revising.length = (if isDeepThink then numAgents else 0) ∧
  p.synthesizing.length = (if isDeepThink then 2 else 1)

/-- Pointwise order on progress states: no boolean decreases. -/
def progLe (p q : ProgressState) : Prop :=
  List.Forall₂ (· ≤ ·) p.initial q.initial ∧
  List.Forall₂ (· ≤ ·) p.refining q.refining ∧
  List.Forall₂ (· ≤ ·) p.critiquing q.critiquing ∧
  List.Forall₂ (· ≤ ·) p.revising q.revising ∧
  List.Forall₂ (· ≤ ·) p.synthesizing q.synthesizing ∧
  p.finalSynthesizing ≤ q.finalSynthesizing ∧
  p.reviewing ≤ q.reviewing ∧
  p.verifying ≤ q.verifying

/-- Every boolean of the progress state is `false`. -/
def progAllFalse (p : ProgressState) : Prop :=
  (∀ b ∈ p.initial, b = false) ∧
  (∀ b ∈ p.refining, b = false) ∧
  (∀ b ∈ p.critiquing, b = false) ∧
  (∀ b ∈ p.revising, b = false) ∧
  (∀ b ∈ p.synthesizing, b = false) ∧
  p.finalSynthesizing = false ∧ p.reviewing = false ∧ p.verifying = false

/-! ### The App submission surface (source lines 295-315, 438-451) -/

structure AppState where
  messages : List Message
  inputText : String
  attachedFile : Option AttachedFile
  isDeepThink : Bool
  isLoading : Bool
  progress : ProgressState
deriving Repr

/-- `handleSubmit` (source lines 438-447): the guard, then
`runOrchestration(6, true)` or `runOrchestration(4, false)` by the
DeepThink flag. -/
def handleSubmitAgents (isDeepThink : Bool) : ℕ × Bool :=
  if isDeepThink then (6, true) else (4, false)

def handleSubmit (gen : Oracle) (sk : SkState) (jsNew : String → Option String)
    (st : AppState) : AppState × List GenRequest :=
  if jsTrim st.inputText = "" ∧ st.attachedFile = none then (st, [])
  else
    let c := handleSubmitAgents st.isDeepThink
    let r := runOrchestration gen sk jsNew c.1 c.2 st.inputText st.attachedFile st.messages
    ({ messages := r.1, inputText := "", attachedFile := none,
       isDeepThink := st.isDeepThink, isLoading := false,
       progress := mkInitProgress c.1 c.2 }, r.2)

/-! ### Stage Output Set assembly (source lines 502-512)

Each unit `i` writes its answer into slot `i` of a pre-allocated array
(`initialAnswers[i] = res.text`); the units resolve in an arbitrary
completion order.  `fillSlots` replays the slot writes in any completion
order over the `Array(numAgents).fill('')` allocation. -/

def fillSlots (ans : ℕ → String) (order : List ℕ) (slots : List String) : List String :=
  order.foldl (fun acc i => acc.set i (ans i)) slots

/-! ### Topology instruction sequences (for the stage-order theorems) -/

/-- The system instructions of the requests a standard-mode run issues, in
order, before any repair call. -/
def stdInstrSeq (numAgents : ℕ) : List String :=
  List.replicate numAgents INITIAL_SYSTEM_INSTRUCTION ++
  List.replicate numAgents REFINEMENT_SYSTEM_INSTRUCTION ++
  [SYNTHESIZER_SYSTEM_INSTRUCTION]

/-- The system instructions of the requests a Deep-mode run issues, in
order, before any repair call. -/
def deepInstrSeq (numAgents : ℕ) : List String :=
  List.replicate numAgents INITIAL_SYSTEM_INSTRUCTION ++
  List.replicate numAgents REFINEMENT_SYSTEM_INSTRUCTION ++
  List.replicate numAgents CRITIQUE_AGENT_SYSTEM_INSTRUCTION ++
  List.replicate numAgents REVISION_AGENT_SYSTEM_INSTRUCTION ++
  [SYNTHESIZER_SYSTEM_INSTRUCTION, SYNTHESIZER_SYSTEM_INSTRUCTION,
   SYNTHESIZER_SYSTEM_INSTRUCTION, FINAL_REVIEW_SYSTEM_INSTRUCTION]

/-- Infix relation on strings, through their character lists. -/
def strInfix (a b : String) : Prop := a.data <:+: b.data

/-! ## Theorems -/

/-! ### Helper lemmas on the context builders -/

lemma strInfix_of_middle (a pre post b : String) (h : b = pre ++ a ++ post) :
    strInfix a b := by
  subst h
  unfold strInfix
  rw [String.data_append, String.data_append]
  exact List.infix_append _ _ _

lemma strInfix_trans {a b c : String} (h1 : strInfix a b) (h2 : strInfix b c) :
    strInfix a c :=
  List.IsInfix.trans h1 h2

lemma joinWith_mem_embedded (sep : String) (l : List String) (x : String) (hx : x ∈ l) :
    strInfix x (joinWith sep l) := by
  induction l with
  | nil => cases hx
  | cons y t ih =>
    cases t with
    | nil =>
      rcases List.mem_singleton.mp hx with rfl
      exact ⟨[], [], by simp [joinWith]⟩
    | cons z t' =>
      rcases List.mem_cons.mp hx with rfl | hmem
      · refine strInfix_of_middle x "" (sep ++ joinWith sep (z :: t')) _ ?_
        simp [joinWith, String.append_assoc]
      · refine strInfix_trans (ih hmem) ?_
        refine strInfix_of_middle _ (y ++ sep) "" _ ?_
        simp [joinWith, String.append_assoc]

/-- The index filter of the refinement stage is exactly `eraseIdx`:
unit `i` sees every other unit's answer, in order. -/
lemma enumFrom_filter_ne_map (l : List String) : ∀ (n i : ℕ),
    ((List.enumFrom n l).filter (fun p => p.1 != (n + i))).map (fun p => p.2) =
      l.eraseIdx i := by
  induction l with
  | nil => intro n i; simp
  | cons a t ih =>
    intro n i
    cases i with
    | zero =>
      have hkeep : ∀ m j : ℕ, m < j →
          ((List.enumFrom j t).filter (fun p => p.1 != m)).map (fun p => p.2) = t := by
        clear ih
        induction t with
        | nil => intro m j _; simp
        | cons b t' ih' =>
          intro m j hmj
          have hne : (j != m) = true := by simp [Nat.ne_of_gt hmj]
          simp only [List.enumFrom, List.filter_cons, hne, if_pos, List.map_cons]
          rw [ih' m (j + 1) (Nat.lt_succ_of_lt hmj)]
      have hhead : (n != (n + 0)) = false := by simp
      simp only [List.enumFrom, List.filter_cons, hhead, List.eraseIdx]
      exact hkeep (n + 0) (n + 1) (by omega)
    | succ i' =>
      have hhead : (n != (n + (i' + 1))) = true := by
        simp only [bne_iff_ne, ne_eq]
        omega
      simp only [List.enumFrom, List.filter_cons, hhead, if_pos, List.map_cons,
        List.eraseIdx]
      have := ih (n + 1) i'
      rw [show n + 1 + i' = n + (i' + 1) by omega] at this
      rw [this]

lemma otherAnswersOf_eq_eraseIdx (l : List String) (i : ℕ) :
    otherAnswersOf l i = l.eraseIdx i := by
  unfold otherAnswersOf
  have := enumFrom_filter_ne_map l 0 i
  simpa [List.enum] using this

/-- C1: In Deep mode with 6 units, the critique authored by unit `i` reviews
the refined output of unit `(i+1) mod 6`, the revision of unit `i` consumes
the critique authored by unit `(i-1+6) mod 6` (the inverse ring edge), so
each unit is revised using exactly the critique written about its own
output, and no unit reviews itself. -/
theorem C1_deep_ring (i : ℕ) (h : i < 6) (userInput : String)
    (refinedAnswers critiques : List String) :
    critiqueContext userInput refinedAnswers 6 i =
      "The user's query was: \"" ++ userInput ++
        "\". Here is the response to critique:\n\n---RESPONSE---\n" ++
        refinedAnswers.getD (critiquePeerIdx 6 i) "" ∧
    revisionContext refinedAnswers critiques 6 i =
      "Here was your original response:\n\n---ORIGINAL---\n" ++
        refinedAnswers.getD i "" ++
        "\n\nHere is a critique from a peer:\n\n---CRITIQUE---\n" ++
        critiques.getD (revisionCritIdx 6 i) "" ++
        "\n\nBased on the critique, provide an improved response to the original query." ∧
    critiquePeerIdx 6 i = (i + 1) % 6 ∧
    revisionCritIdx 6 i = (((i : ℤ) - 1 + 6) % 6).toNat ∧
    critiquePeerIdx 6 (revisionCritIdx 6 i) = i ∧
    revisionCritIdx 6 (critiquePeerIdx 6 i) = i ∧
    critiquePeerIdx 6 i ≠ i := by
  refine ⟨rfl, rfl, rfl, rfl, ?_, ?_, ?_⟩ <;> revert h <;> revert i <;> decide

theorem C1_deep_ring_witness :
    critiquePeerIdx 6 (revisionCritIdx 6 0) = 0 ∧ critiquePeerIdx 6 0 ≠ 0 := by
  have h := C1_deep_ring 0 (by norm_num) "q" [] []
  exact ⟨h.2.2.2.2.1, h.2.2.2.2.2.2⟩

/-- C6: the refinement prompt for unit `i` embeds the prior-stage outputs of
all the other units — the filtered peer list is exactly `eraseIdx i`, it has
`N-1` entries, and each peer answer occurs verbatim inside the unit's
context string, numbered and newline-joined. -/
theorem C6_refinement_peers (initialAnswers : List String) (i : ℕ)
    (h : i < initialAnswers.length) :
    otherAnswersOf initialAnswers i = initialAnswers.eraseIdx i ∧
    (otherAnswersOf initialAnswers i).length = initialAnswers.length - 1 ∧
    refinementContext initialAnswers i =
      "The response I'm working with is: \"" ++ initialAnswers.getD i "" ++
        "\". The other agents responded with:\n" ++
        numberedOthers (initialAnswers.eraseIdx i) ++
        "\n\nBased on this context, critically re-evaluate and provide a new, improved response to the original query." ∧
    ∀ a ∈ initialAnswers.eraseIdx i, strInfix a (refinementContext initialAnswers i) := by
  have he := otherAnswersOf_eq_eraseIdx initialAnswers i
  refine ⟨he, ?_, ?_, ?_⟩
  · rw [he]
    simp [List.length_eraseIdx, h]
  · unfold refinementContext
    rw [he]
  · intro a ha
    have houter : refinementContext initialAnswers i =
        ("The response I'm working with is: \"" ++ initialAnswers.getD i "" ++
          "\". The other agents responded with:\n") ++
        numberedOthers (initialAnswers.eraseIdx i) ++
        "\n\nBased on this context, critically re-evaluate and provide a new, improved response to the original query." := by
      unfold refinementContext
      rw [he]
    refine strInfix_trans ?_ (strInfix_of_middle _ _ _ _ houter)
    obtain ⟨p, hp, hpa⟩ : ∃ p ∈ (initialAnswers.eraseIdx i).enum, p.2 = a := by
      have hsnd := List.enum_map_snd (initialAnswers.eraseIdx i)
      rw [← hsnd] at ha
      exact List.mem_map.mp ha
    have hitem :
        (toString (p.1 + 1) ++ ". \"" ++ p.2 ++ "\"") ∈
          ((initialAnswers.eraseIdx i).enum).map
            (fun q => toString (q.1 + 1) ++ ". \"" ++ q.2 ++ "\"") :=
      List.mem_map_of_mem _ hp
    refine strInfix_trans ?_ (joinWith_mem_embedded "\n" _ _ hitem)
    subst hpa
    exact strInfix_of_middle _ (toString (p.1 + 1) ++ ". \"") "\"" _
      (by simp [String.append_assoc])

theorem C6_refinement_peers_witness :
    otherAnswersOf ["a", "b", "c", "d"] 1 = ["a", "c", "d"] ∧
    (otherAnswersOf ["a", "b", "c", "d"] 1).length = 3 := by
  have h := C6_refinement_peers ["a", "b", "c", "d"] 1 (by norm_num)
  exact ⟨h.1.trans (by decide), h.2.1⟩

/-- C10: a submission whose query text trims to empty and with no attachment
is a no-op: `handleSubmit` returns the state unchanged and issues no
request, and `runOrchestration` itself guards identically. -/
theorem C10_empty_submission_noop (gen : Oracle) (sk : SkState)
    (jsNew : String → Option String) (st : AppState)
    (h1 : jsTrim st.inputText = "") (h2 : st.attachedFile = none) :
    handleSubmit gen sk jsNew st = (st, []) ∧
    ∀ (numAgents : ℕ) (isDeepThink : Bool) (messages : List Message),
      runOrchestration gen sk jsNew numAgents isDeepThink st.inputText none messages =
        (messages, []) := by
  constructor
  · unfold handleSubmit
    rw [if_pos ⟨h1, h2⟩]
  · intro n d msgs
    unfold runOrchestration
    simp [h1]

theorem C10_empty_submission_noop_witness :
    handleSubmit (fun _ _ => Except.ok "x") SkState.absent (fun _ => none)
      ⟨[], "   ", none, false, false, mkInitProgress 4 false⟩ =
      (⟨[], "   ", none, false, false, mkInitProgress 4 false⟩, []) :=
  (C10_empty_submission_noop (fun _ _ => Except.ok "x") SkState.absent (fun _ => none)
    ⟨[], "   ", none, false, false, mkInitProgress 4 false⟩ (by decide) rfl).1

/-! ### C5: Stage Output Set assembly -/

lemma fillSlots_length (ans : ℕ → String) (order : List ℕ) (slots : List String) :
    (fillSlots ans order slots).length = slots.length := by
  induction order generalizing slots with
  | nil => rfl
  | cons i rest ih =>
    show (fillSlots ans rest (slots.set i (ans i))).length = slots.length
    rw [ih, List.length_set]

lemma fillSlots_getElem? (ans : ℕ → String) (order : List ℕ) (slots : List String)
    (k : ℕ) :
    (fillSlots ans order slots)[k]? =
      if k ∈ order ∧ k < slots.length then some (ans k) else slots[k]? := by
  induction order generalizing slots with
  | nil => simp [fillSlots]
  | cons i rest ih =>
    show (fillSlots ans rest (slots.set i (ans i)))[k]? = _
    rw [ih, List.length_set]
    by_cases hk : k ∈ rest ∧ k < slots.length
    · rw [if_pos hk, if_pos ⟨List.mem_cons_of_mem i hk.1, hk.2⟩]
    · rw [if_neg hk, List.getElem?_set]
      by_cases hik : i = k
      · subst hik
        by_cases hlen : i < slots.length
        · simp [hlen]
        · simp [hlen, List.getElem?_eq_none (Nat.le_of_not_lt hlen)]
      · rw [if_neg hik]
        have : ¬(k ∈ i :: rest ∧ k < slots.length) := by
          rintro ⟨hmem, hlt⟩
          rcases List.mem_cons.mp hmem with rfl | hmem'
          · exact hik rfl
          · exact hk ⟨hmem', hlt⟩
        rw [if_neg this]

/-- A stage that completes (all promises resolved) yields exactly one
answer per unit: the fan-in barrier hands the next stage a hole-free set. -/
lemma runStageGo_ok_length (gen : Oracle) :
    ∀ (reqs : List GenRequest) (base : ℕ) (ts : List String),
      runStageGo gen base reqs = Except.ok ts → ts.length = reqs.length := by
  intro reqs
  induction reqs with
  | nil =>
    intro base ts h
    injection h with h'
    rw [← h']
    rfl
  | cons r rs ih =>
    intro base ts h
    unfold runStageGo at h
    cases hg : gen base r with
    | ok t =>
      rw [hg] at h
      cases hrec : runStageGo gen (base + 1) rs with
      | ok ts' =>
        rw [hrec] at h
        injection h with h'
        rw [← h', List.length_cons, List.length_cons, ih (base + 1) ts' hrec]
      | error e => rw [hrec] at h; cases h
    | error e => rw [hg] at h; cases h

/-- C5: for a stage with `N` units, writing each unit's answer into its own
slot of the pre-allocated `Array(N).fill('')` yields, for *every* completion
order (any permutation of the unit indices), the list whose `i`-th entry is
the answer of unit `i`; the set has exactly `N` entries, and they are all
non-empty whenever the unit answers are.  The final conjunct is the fan-in
barrier on the pipeline itself: whenever a stage resolves (so that the
monadic sequencing lets the next stage start), its output set carries
exactly one entry per unit — no holes. -/
theorem C5_stage_output_set (n : ℕ) (ans : ℕ → String) (order : List ℕ)
    (hperm : order.Perm (List.range n)) :
    fillSlots ans order (List.replicate n "") = (List.range n).map ans ∧
    (fillSlots ans order (List.replicate n "")).length = n ∧
    ((∀ i, i < n → ans i ≠ "") →
      ∀ s ∈ fillSlots ans order (List.replicate n ""), s ≠ "") ∧
    (∀ (gen : Oracle) (base : ℕ) (reqs : List GenRequest) (ts : List String),
      runStageGo gen base reqs = Except.ok ts → ts.length = reqs.length) := by
  have hmem : ∀ k, k ∈ order ↔ k < n := by
    intro k
    rw [hperm.mem_iff, List.mem_range]
  have hmain : fillSlots ans order (List.replicate n "") = (List.range n).map ans := by
    apply List.ext_getElem?
    intro k
    rw [fillSlots_getElem?, List.length_replicate]
    by_cases hk : k < n
    · rw [if_pos ⟨(hmem k).mpr hk, hk⟩]
      rw [List.getElem?_map, List.getElem?_range hk]
      rfl
    · rw [if_neg (by tauto)]
      rw [List.getElem?_eq_none (by simpa using Nat.le_of_not_lt hk),
        List.getElem?_eq_none (by simpa using Nat.le_of_not_lt hk)]
  refine ⟨hmain, by rw [fillSlots_length, List.length_replicate], ?_,
    fun gen base reqs ts h => runStageGo_ok_length gen reqs base ts h⟩
  intro hne s hs
  rw [hmain] at hs
  obtain ⟨i, hi, rfl⟩ := List.mem_map.mp hs
  exact hne i (List.mem_range.mp hi)

theorem C5_stage_output_set_witness :
    fillSlots (fun i => toString (i + 1)) [3, 1, 0, 2] (List.replicate 4 "") =
      ["1", "2", "3", "4"] := by
  have h := C5_stage_output_set 4 (fun i => toString (i + 1)) [3, 1, 0, 2] (by decide)
  exact h.1.trans (by decide)

/-! ### C7: Progress State monotonicity -/

lemma forall2_le_refl (l : List Bool) : List.Forall₂ (· ≤ ·) l l :=
  List.forall₂_same.mpr (fun a _ => le_refl a)

lemma forall2_le_trans : ∀ {l m n : List Bool},
    List.Forall₂ (· ≤ ·) l m → List.Forall₂ (· ≤ ·) m n → List.Forall₂ (· ≤ ·) l n := by
  intro l m n h1
  induction h1 generalizing n with
  | nil =>
    intro h2
    cases h2
    exact List.Forall₂.nil
  | cons hab _ ih =>
    intro h2
    cases h2 with
    | cons hbc htail => exact List.Forall₂.cons (le_trans hab hbc) (ih htail)

lemma mapIdx_le (l : List Bool) : ∀ (f : ℕ → Bool → Bool), (∀ n b, b ≤ f n b) →
    List.Forall₂ (· ≤ ·) l (List.mapIdx f l) := by
  induction l with
  | nil => intro f _; simp [List.Forall₂.nil]
  | cons a t ih =>
    intro f hf
    rw [List.mapIdx_cons]
    exact List.Forall₂.cons (hf 0 a) (ih _ (fun n b => hf (n + 1) b))

lemma setFlagAt_le (l : List Bool) (i : ℕ) : List.Forall₂ (· ≤ ·) l (setFlagAt l i) := by
  refine mapIdx_le l _ (fun n b => ?_)
  by_cases h : n = i <;> simp [h]

lemma mapIdx_getElem? {α β : Type} (l : List α) : ∀ (f : ℕ → α → β) (k : ℕ),
    (List.mapIdx f l)[k]? = Option.map (f k) l[k]? := by
  induction l with
  | nil => intro f k; simp
  | cons a t ih =>
    intro f k
    rw [List.mapIdx_cons]
    cases k with
    | zero => simp
    | succ k' => simpa using ih (fun i => f (i + 1)) k'

lemma mapIdx_length {α β : Type} (l : List α) : ∀ (f : ℕ → α → β),
    (List.mapIdx f l).length = l.length := by
  induction l with
  | nil => intro f; rfl
  | cons a t ih =>
    intro f
    rw [List.mapIdx_cons, List.length_cons, List.length_cons, ih]

lemma setFlagAt_length (l : List Bool) (i : ℕ) : (setFlagAt l i).length = l.length :=
  mapIdx_length l _

lemma setFlagAt_getD (l : List Bool) (i : ℕ) (h : i < l.length) :
    (setFlagAt l i).getD i false = true := by
  rw [List.getD_eq_getElem?_getD]
  unfold setFlagAt
  rw [mapIdx_getElem?]
  rw [List.getElem?_eq_getElem h]
  simp

lemma forall2_le_getD {l m : List Bool} (h : List.Forall₂ (· ≤ ·) l m) :
    ∀ i, l.getD i false ≤ m.getD i false := by
  induction h with
  | nil => intro i; simp
  | cons hab _ ih =>
    intro i
    cases i with
    | zero => simpa using hab
    | succ i' => simpa using ih i'

lemma progLe_refl (p : ProgressState) : progLe p p :=
  ⟨forall2_le_refl _, forall2_le_refl _, forall2_le_refl _, forall2_le_refl _,
   forall2_le_refl _, le_refl _, le_refl _, le_refl _⟩

lemma progLe_trans {p q r : ProgressState} (h1 : progLe p q) (h2 : progLe q r) :
    progLe p r :=
  ⟨forall2_le_trans h1.1 h2.1, forall2_le_trans h1.2.1 h2.2.1,
   forall2_le_trans h1.2.2.1 h2.2.2.1, forall2_le_trans h1.2.2.2.1 h2.2.2.2.1,
   forall2_le_trans h1.2.2.2.2.1 h2.2.2.2.2.1,
   le_trans h1.2.2.2.2.2.1 h2.2.2.2.2.2.1,
   le_trans h1.2.2.2.2.2.2.1 h2.2.2.2.2.2.2.1,
   le_trans h1.2.2.2.2.2.2.2 h2.2.2.2.2.2.2.2⟩

/-- One valid `setProgress` update only raises booleans, preserves the
stage widths, and leaves its own boolean `true`. -/
lemma applyUpd_step (numAgents : ℕ) (isDeepThink : Bool) (u : PUpd)
    (p : ProgressState) (hv : validUpd numAgents isDeepThink u)
    (hs : progShape numAgents isDeepThink p) :
    progLe p (applyUpd u p) ∧ progShape numAgents isDeepThink (applyUpd u p) ∧
      flagOf u (applyUpd u p) = true := by
  obtain ⟨s1, s2, s3, s4, s5⟩ := hs
  cases u with
  | initialDone i =>
    have hvi : i < numAgents := hv
    exact ⟨⟨setFlagAt_le _ _, forall2_le_refl _, forall2_le_refl _, forall2_le_refl _,
      forall2_le_refl _, le_refl _, le_refl _, le_refl _⟩,
      ⟨by simpa [applyUpd, setFlagAt_length], s2, s3, s4, s5⟩,
      setFlagAt_getD _ _ (by omega)⟩
  | refiningDone i =>
    have hvi : i < numAgents := hv
    exact ⟨⟨forall2_le_refl _, setFlagAt_le _ _, forall2_le_refl _, forall2_le_refl _,
      forall2_le_refl _, le_refl _, le_refl _, le_refl _⟩,
      ⟨s1, by simpa [applyUpd, setFlagAt_length], s3, s4, s5⟩,
      setFlagAt_getD _ _ (by omega)⟩
  | critiquingDone i =>
    obtain ⟨hd, hi⟩ := hv
    exact ⟨⟨forall2_le_refl _, forall2_le_refl _, setFlagAt_le _ _, forall2_le_refl _,
      forall2_le_refl _, le_refl _, le_refl _, le_refl _⟩,
      ⟨s1, s2, by simpa [applyUpd, setFlagAt_length], s4, s5⟩,
      setFlagAt_getD _ _ (by rw [s3, hd]; simpa using hi)⟩
  | revisingDone i =>
    obtain ⟨hd, hi⟩ := hv
    exact ⟨⟨forall2_le_refl _, forall2_le_refl _, forall2_le_refl _, setFlagAt_le _ _,
      forall2_le_refl _, le_refl _, le_refl _, le_refl _⟩,
      ⟨s1, s2, s3, by simpa [applyUpd, setFlagAt_length], s5⟩,
      setFlagAt_getD _ _ (by rw [s4, hd]; simpa using hi)⟩
  | synthesizingDone i =>
    obtain ⟨hd, hi⟩ := hv
    exact ⟨⟨forall2_le_refl _, forall2_le_refl _, forall2_le_refl _, forall2_le_refl _,
      setFlagAt_le _ _, le_refl _, le_refl _, le_refl _⟩,
      ⟨s1, s2, s3, s4, by simpa [applyUpd, setFlagAt_length]⟩,
      setFlagAt_getD _ _ (by rw [s5, hd]; simpa using hi)⟩
  | synthesizingStd =>
    have hd : isDeepThink = false := hv
    rw [hd] at s5
    simp only [if_neg Bool.false_ne_true] at s5
    obtain ⟨b, hb⟩ : ∃ b, p.synthesizing = [b] := by
      cases hsy : p.synthesizing with
      | nil => rw [hsy] at s5; simp at s5
      | cons x t =>
        rw [hsy] at s5
        cases t with
        | nil => exact ⟨x, rfl⟩
        | cons y t' => simp at s5
    refine ⟨⟨forall2_le_refl _, forall2_le_refl _, forall2_le_refl _, forall2_le_refl _,
      ?_, le_refl _, le_refl _, le_refl _⟩,
      ⟨s1, s2, s3, s4, by simp [applyUpd, hd]⟩, by simp [applyUpd, flagOf]⟩
    rw [hb]
    show List.Forall₂ (· ≤ ·) [b] [true]
    exact List.Forall₂.cons (by simp) List.Forall₂.nil
  | finalSynthesizingDone =>
    exact ⟨⟨forall2_le_refl _, forall2_le_refl _, forall2_le_refl _, forall2_le_refl _,
      forall2_le_refl _, by simp [applyUpd], le_refl _, le_refl _⟩,
      ⟨s1, s2, s3, s4, s5⟩, rfl⟩
  | reviewingDone =>
    exact ⟨⟨forall2_le_refl _, forall2_le_refl _, forall2_le_refl _, forall2_le_refl _,
      forall2_le_refl _, le_refl _, by simp [applyUpd], le_refl _⟩,
      ⟨s1, s2, s3, s4, s5⟩, rfl⟩
  | verifyingDone =>
    exact ⟨⟨forall2_le_refl _, forall2_le_refl _, forall2_le_refl _, forall2_le_refl _,
      forall2_le_refl _, le_refl _, le_refl _, by simp [applyUpd]⟩,
      ⟨s1, s2, s3, s4, s5⟩, rfl⟩

lemma applyUpds_mono (numAgents : ℕ) (isDeepThink : Bool) :
    ∀ (L : List PUpd) (p : ProgressState),
      (∀ u ∈ L, validUpd numAgents isDeepThink u) →
      progShape numAgents isDeepThink p →
      progLe p (applyUpds L p) ∧ progShape numAgents isDeepThink (applyUpds L p) := by
  intro L
  induction L with
  | nil => intro p _ hs; exact ⟨progLe_refl p, hs⟩
  | cons u t ih =>
    intro p hv hs
    obtain ⟨h1, h2, _⟩ := applyUpd_step numAgents isDeepThink u p (hv u (by simp)) hs
    obtain ⟨h3, h4⟩ := ih (applyUpd u p) (fun v hvt => hv v (by simp [hvt])) h2
    exact ⟨progLe_trans h1 h3, h4⟩

/-- A boolean already set stays set under any later monotone progress. -/
lemma flagOf_mono {p q : ProgressState} (u : PUpd) (h : progLe p q)
    (hf : flagOf u p = true) : flagOf u q = true := by
  cases u
  all_goals
    simp only [flagOf] at hf ⊢
  · exact le_antisymm (by simp) (hf ▸ forall2_le_getD h.1 _)
  · exact le_antisymm (by simp) (hf ▸ forall2_le_getD h.2.1 _)
  · exact le_antisymm (by simp) (hf ▸ forall2_le_getD h.2.2.1 _)
  · exact le_antisymm (by simp) (hf ▸ forall2_le_getD h.2.2.2.1 _)
  · exact le_antisymm (by simp) (hf ▸ forall2_le_getD h.2.2.2.2.1 _)
  · exact le_antisymm (by simp) (hf ▸ forall2_le_getD h.2.2.2.2.1 _)
  · exact le_antisymm (by simp) (hf ▸ h.2.2.2.2.2.1)
  · exact le_antisymm (by simp) (hf ▸ h.2.2.2.2.2.2.1)
  · exact le_antisymm (by simp) (hf ▸ h.2.2.2.2.2.2.2)

lemma applyUpds_flag (numAgents : ℕ) (isDeepThink : Bool) :
    ∀ (L : List PUpd) (u : PUpd) (p : ProgressState), u ∈ L →
      (∀ v ∈ L, validUpd numAgents isDeepThink v) →
      progShape numAgents isDeepThink p →
      flagOf u (applyUpds L p) = true := by
  intro L
  induction L with
  | nil => intro u p hu; cases hu
  | cons v t ih =>
    intro u p hu hv hs
    obtain ⟨h1, h2, h3⟩ := applyUpd_step numAgents isDeepThink v p (hv v (by simp)) hs
    rcases List.mem_cons.mp hu with rfl | hut
    · have := applyUpds_mono numAgents isDeepThink t (applyUpd u p)
        (fun w hw => hv w (by simp [hw])) h2
      exact flagOf_mono u this.1 h3
    · exact ih u (applyUpd v p) hut (fun w hw => hv w (by simp [hw])) h2

/-- C7: the Progress State starts all-false with the mode's stage widths;
any sequence of the run's index-keyed functional updates, applied in any
completion order from any reachable state, never lowers a boolean (so each
boolean flips false-to-true at most once and never true-to-false); and the
boolean targeted by each update in the sequence ends `true` — no
completion's update is lost. -/
theorem C7_progress_monotone (numAgents : ℕ) (isDeepThink : Bool) :
    progAllFalse (mkInitProgress numAgents isDeepThink) ∧
    progShape numAgents isDeepThink (mkInitProgress numAgents isDeepThink) ∧
    (∀ (L : List PUpd) (p : ProgressState),
      (∀ u ∈ L, validUpd numAgents isDeepThink u) →
      progShape numAgents isDeepThink p →
      progLe p (applyUpds L p)) ∧
    (∀ (L : List PUpd) (u : PUpd), u ∈ L →
      (∀ v ∈ L, validUpd numAgents isDeepThink v) →
      flagOf u (applyUpds L (mkInitProgress numAgents isDeepThink)) = true) := by
  have hshape : progShape numAgents isDeepThink (mkInitProgress numAgents isDeepThink) := by
    cases isDeepThink <;> simp [mkInitProgress, progShape]
  refine ⟨?_, hshape, ?_, ?_⟩
  · cases isDeepThink <;>
      refine ⟨?_, ?_, ?_, ?_, ?_, rfl, rfl, rfl⟩ <;>
      intro b hb <;>
      first
        | exact List.eq_of_mem_replicate hb
        | simpa [mkInitProgress] using hb
        | simp_all [mkInitProgress]
  · intro L p hv hs
    exact (applyUpds_mono numAgents isDeepThink L p hv hs).1
  · intro L u hu hv
    exact applyUpds_flag numAgents isDeepThink L u _ hu hv hshape

/-! ### C3 and C9: the Syntax Validator -/

/-- If every scanned block passes the validator, the repair loop finds
nothing. -/
lemma firstInvalidBlock_none (sk : SkState) (jsNew : String → Option String) :
    ∀ (bs : List FencedBlock),
      (∀ b ∈ bs, checkCodeSyntax sk jsNew (String.mk b.lang) (String.mk b.code) = none) →
      firstInvalidBlock sk jsNew bs = none := by
  intro bs
  induction bs with
  | nil => intro _; rfl
  | cons b t ih =>
    intro h
    unfold firstInvalidBlock
    rw [h b (by simp)]
    exact ih (fun x hx => h x (by simp [hx]))

/-- C3 (amended): a fenced block whose language tag is not
javascript/js/python/py yields no diagnostic, and a text all of whose blocks
have such tags never triggers the repair flow (no correction request, text
returned unchanged) — but a `python`/`py` block when the Skulpt interpreter
is **not loaded** yields the fixed diagnostic
`"Skulpt (Python interpreter) not loaded."` rather than passing silently. -/
theorem C3_unsupported_language (sk : SkState) (jsNew : String → Option String) :
    (∀ language code : String,
      jsToLower language ∉ (["javascript", "js", "python", "py"] : List String) →
      checkCodeSyntax sk jsNew language code = none) ∧
    (∀ (gen : Oracle) (hist : List Message) (text : String),
      (∀ b ∈ scanCodeBlocks text.data,
        jsToLower (String.mk b.lang) ∉ (["javascript", "js", "python", "py"] : List String)) →
      ∀ log : List GenRequest, runRepair gen sk jsNew hist text log = (Except.ok text, log)) ∧
    (∀ code : String,
      checkCodeSyntax SkState.absent jsNew "python" code =
        some "Skulpt (Python interpreter) not loaded.") := by
  have hnone : ∀ language code : String,
      jsToLower language ∉ (["javascript", "js", "python", "py"] : List String) →
      checkCodeSyntax sk jsNew language code = none := by
    intro language code h
    simp only [List.mem_cons, List.mem_singleton, not_or] at h
    obtain ⟨h1, h2, h3, h4⟩ := h
    unfold checkCodeSyntax
    simp only [if_neg (by tauto : ¬(jsToLower language = "javascript" ∨ jsToLower language = "js")),
      if_neg (by tauto : ¬(jsToLower language = "python" ∨ jsToLower language = "py"))]
  refine ⟨hnone, ?_, ?_⟩
  · intro gen hist text hblocks log
    unfold runRepair
    rw [firstInvalidBlock_none sk jsNew _
      (fun b hb => hnone _ _ (hblocks b hb))]
    rfl
  · intro code
    rfl

theorem C3_unsupported_language_witness :
    checkCodeSyntax SkState.absent (fun _ => some "boom") "ruby" "@@ nonsense @@" = none ∧
    runRepair (fun _ _ => Except.ok "fix") SkState.absent (fun _ => some "boom") []
        "```ruby\n@@ nonsense @@\n```" [] =
      (Except.ok "```ruby\n@@ nonsense @@\n```", []) := by
  have h := C3_unsupported_language SkState.absent (fun _ => some "boom")
  exact ⟨h.1 "ruby" "@@ nonsense @@" (by decide),
    h.2.1 (fun _ _ => Except.ok "fix") [] "```ruby\n@@ nonsense @@\n```" (by decide) []⟩

/-- C3 counterexample: with the Skulpt interpreter not loaded, a `python`
block whose body is perfectly fine receives a diagnostic (the load-failure
message) and **does** trigger the repair flow — one correction request is
issued — contradicting the claim that a supported language with its checker
not loaded is treated as "no diagnostic" and never triggers repair. -/
theorem C3_not_loaded_cex :
    checkCodeSyntax SkState.absent (fun _ => none) "python" "x = 1" =
      some "Skulpt (Python interpreter) not loaded." ∧
    (firstInvalidBlock SkState.absent (fun _ => none)
      (scanCodeBlocks ("```python\nx = 1\n```").data)).isSome = true ∧
    (runRepair (fun _ _ => Except.ok "ok") SkState.absent (fun _ => none) []
      "```python\nx = 1\n```" []).2 ≠ [] := by
  refine ⟨rfl, by decide, by decide⟩

/-- C9 (amended): the validator defers entirely to external engines.  The
`javascript`/`js` path returns exactly the `new Function` oracle's verdict
(a compile-only check); unsupported tags return no diagnostic; the
`python`/`py` path returns the fixed load-failure diagnostic when the
interpreter is absent and otherwise returns the outcome of *executing* the
module through the same Skulpt entry point the run-in-canvas executor uses
(output suppressed) — so its result is a function of the interpreter
environment, not of the (tag, code) pair alone. -/
theorem C9_validator_defers (jsNew : String → Option String)
    (run : String → Option String) (code : String) :
    checkCodeSyntax SkState.absent jsNew "javascript" code = jsNew code ∧
    checkCodeSyntax (SkState.loaded run) jsNew "js" code = jsNew code ∧
    checkCodeSyntax (SkState.loaded run) jsNew "python" code = run code ∧
    checkCodeSyntax (SkState.loaded run) jsNew "py" code = run code ∧
    checkCodeSyntax SkState.absent jsNew "python" code =
      some "Skulpt (Python interpreter) not loaded." ∧
    checkCodeSyntax SkState.absent jsNew "PY" code =
      some "Skulpt (Python interpreter) not loaded." :=
  ⟨rfl, rfl, rfl, rfl, rfl, rfl⟩

/-- C9 counterexample: the same (tag, code) pair — `("python", "x = 1")` —
yields a diagnostic when the interpreter is not loaded and no diagnostic
when it is, so the validator's result is not determined by the pair (and the
diagnostic is produced although nothing about the snippet failed to parse). -/
theorem C9_validator_cex :
    checkCodeSyntax SkState.absent (fun _ => none) "python" "x = 1" ≠
      checkCodeSyntax (SkState.loaded (fun _ => none)) (fun _ => none) "python" "x = 1" ∧
    checkCodeSyntax SkState.absent (fun _ => none) "python" "x = 1" =
      some "Skulpt (Python interpreter) not loaded." ∧
    checkCodeSyntax (SkState.loaded (fun _ => none)) (fun _ => none) "python" "x = 1" =
      none := by
  exact ⟨by decide, rfl, rfl⟩

/-! ### C4 and C8: stage sequencing over the completion oracle -/

lemma runStage_apply (gen : Oracle) (reqs log : List GenRequest) :
    runStage gen reqs log = (runStageGo gen log.length reqs, log ++ reqs) := rfl

lemma obind_apply_ok {α β : Type} (x : OrchM α) (f : α → OrchM β)
    (log log' : List GenRequest) (a : α) (h : x log = (Except.ok a, log')) :
    obind x f log = f a log' := by
  unfold obind
  rw [h]

lemma obind_apply_err {α β : Type} (x : OrchM α) (f : α → OrchM β)
    (log log' : List GenRequest) (e : Unit) (h : x log = (Except.error e, log')) :
    obind x f log = (Except.error e, log') := by
  unfold obind
  rw [h]

/-- A stage whose calls all succeed returns one answer per request, in
input order. -/
lemma runStageGo_ok_of (gen : Oracle) :
    ∀ (reqs : List GenRequest) (base : ℕ),
      (∀ j r, j < base + reqs.length → ∃ t, gen j r = Except.ok t) →
      ∃ ts, runStageGo gen base reqs = Except.ok ts ∧ ts.length = reqs.length := by
  intro reqs
  induction reqs with
  | nil => intro base _; exact ⟨[], rfl, rfl⟩
  | cons r rs ih =>
    intro base h
    obtain ⟨t, ht⟩ := h base r (by simp)
    obtain ⟨ts, hts, hlen⟩ := ih (base + 1)
      (fun j rr hj => h j rr (by simp only [List.length_cons]; omega))
    refine ⟨t :: ts, ?_, by simp [hlen]⟩
    unfold runStageGo
    rw [ht, hts]

/-- If every request at call index `base + k` fails, the stage fails. -/
lemma runStageGo_err_at (gen : Oracle) :
    ∀ (reqs : List GenRequest) (base k : ℕ), k < reqs.length →
      (∀ r, gen (base + k) r = Except.error ()) →
      runStageGo gen base reqs = Except.error () := by
  intro reqs
  induction reqs with
  | nil => intro base k hk _; simp at hk
  | cons r rs ih =>
    intro base k hk hfail
    cases k with
    | zero =>
      unfold runStageGo
      rw [show base + 0 = base from rfl] at hfail
      rw [hfail r]
    | succ k' =>
      have htail : runStageGo gen (base + 1) rs = Except.error () := by
        refine ih (base + 1) k' (by simpa using Nat.lt_of_succ_lt_succ hk) ?_
        intro rr
        rw [show base + 1 + k' = base + (k' + 1) by omega]
        exact hfail rr
      unfold runStageGo
      rw [htail]
      cases hgen : gen base r <;> rfl

lemma map_sys_const {β : Type} (f : β → GenRequest) (c : String)
    (hc : ∀ x, (f x).systemInstruction = c) (L : List β) :
    (L.map f).map GenRequest.systemInstruction = List.replicate L.length c := by
  induction L with
  | nil => rfl
  | cons a t ih => simp [hc, ih, List.replicate_succ]

lemma initialReqs_map_sys (n : ℕ) (hist : List Message) (turn : Message) :
    (initialReqs n hist turn).map GenRequest.systemInstruction =
      List.replicate n INITIAL_SYSTEM_INSTRUCTION := by
  simp [initialReqs, List.map_replicate]

lemma initialReqs_length (n : ℕ) (hist : List Message) (turn : Message) :
    (initialReqs n hist turn).length = n := by
  simp [initialReqs]

lemma refinementReqs_map_sys (hist : List Message) (apiParts : List MsgPart)
    (l : List String) :
    (refinementReqs hist apiParts l).map GenRequest.systemInstruction =
      List.replicate l.length REFINEMENT_SYSTEM_INSTRUCTION := by
  unfold refinementReqs
  have := map_sys_const (fun p : ℕ × String => refinementReq hist apiParts l p.1)
    REFINEMENT_SYSTEM_INSTRUCTION (fun _ => rfl) l.enum
  simpa [List.enum_length] using this

lemma refinementReqs_length (hist : List Message) (apiParts : List MsgPart)
    (l : List String) : (refinementReqs hist apiParts l).length = l.length := by
  simp [refinementReqs]

lemma critiqueReqs_map_sys (hist : List Message) (apiParts : List MsgPart)
    (u : String) (l : List String) (n : ℕ) :
    (critiqueReqs hist apiParts u l n).map GenRequest.systemInstruction =
      List.replicate l.length CRITIQUE_AGENT_SYSTEM_INSTRUCTION := by
  unfold critiqueReqs
  have := map_sys_const (fun p : ℕ × String => critiqueReq hist apiParts u l n p.1)
    CRITIQUE_AGENT_SYSTEM_INSTRUCTION (fun _ => rfl) l.enum
  simpa [List.enum_length] using this

lemma critiqueReqs_length (hist : List Message) (apiParts : List MsgPart)
    (u : String) (l : List String) (n : ℕ) :
    (critiqueReqs hist apiParts u l n).length = l.length := by
  simp [critiqueReqs]

lemma revisionReqs_map_sys (hist : List Message) (apiParts : List MsgPart)
    (l c : List String) (n : ℕ) :
    (revisionReqs hist apiParts l c n).map GenRequest.systemInstruction =
      List.replicate l.length REVISION_AGENT_SYSTEM_INSTRUCTION := by
  unfold revisionReqs
  have := map_sys_const (fun p : ℕ × String => revisionReq hist apiParts l c n p.1)
    REVISION_AGENT_SYSTEM_INSTRUCTION (fun _ => rfl) l.enum
  simpa [List.enum_length] using this

lemma revisionReqs_length (hist : List Message) (apiParts : List MsgPart)
    (l c : List String) (n : ℕ) :
    (revisionReqs hist apiParts l c n).length = l.length := by
  simp [revisionReqs]

/-- C4: a failing unit aborts the whole run.  (a) Whenever the staged body
fails, the conversation gains exactly the user turn and the one generic
apology message — no partial result.  (b) In standard mode, if every call
before call 5 succeeds and call 5 (the second of the four refinement units)
fails, the body fails, the issued requests are exactly the four initial and
four refinement prompts, and no synthesis request is ever dispatched. -/
theorem C4_failure_aborts (gen : Oracle) (sk : SkState)
    (jsNew : String → Option String) (inputText : String)
    (attachedFile : Option AttachedFile) (messages : List Message)
    (hguard : ¬(jsTrim inputText = "" ∧ attachedFile = none)) :
    (∀ (numAgents : ℕ) (isDeepThink : Bool) (e : Unit) (log : List GenRequest),
      orchBody gen sk jsNew numAgents isDeepThink (jsTrim inputText)
          (mkApiParts (jsTrim inputText) attachedFile) messages [] = (Except.error e, log) →
      runOrchestration gen sk jsNew numAgents isDeepThink inputText attachedFile messages =
        (messages ++ [⟨Role.user, mkApiParts (jsTrim inputText) attachedFile⟩,
                      ⟨Role.model, [textPart FAILURE_MESSAGE_TEXT]⟩], log)) ∧
    ((∀ j r, j < 5 → ∃ t, gen j r = Except.ok t) →
     (∀ r, gen 5 r = Except.error ()) →
      ∃ log : List GenRequest,
        orchBody gen sk jsNew 4 false (jsTrim inputText)
            (mkApiParts (jsTrim inputText) attachedFile) messages [] =
          (Except.error (), log) ∧
        log.map GenRequest.systemInstruction =
          List.replicate 4 INITIAL_SYSTEM_INSTRUCTION ++
            List.replicate 4 REFINEMENT_SYSTEM_INSTRUCTION ∧
        (∀ r ∈ log, r.systemInstruction ≠ SYNTHESIZER_SYSTEM_INSTRUCTION) ∧
        runOrchestration gen sk jsNew 4 false inputText attachedFile messages =
          (messages ++ [⟨Role.user, mkApiParts (jsTrim inputText) attachedFile⟩,
                        ⟨Role.model, [textPart FAILURE_MESSAGE_TEXT]⟩], log)) := by
  have partA : ∀ (numAgents : ℕ) (isDeepThink : Bool) (e : Unit) (log : List GenRequest),
      orchBody gen sk jsNew numAgents isDeepThink (jsTrim inputText)
          (mkApiParts (jsTrim inputText) attachedFile) messages [] = (Except.error e, log) →
      runOrchestration gen sk jsNew numAgents isDeepThink inputText attachedFile messages =
        (messages ++ [⟨Role.user, mkApiParts (jsTrim inputText) attachedFile⟩,
                      ⟨Role.model, [textPart FAILURE_MESSAGE_TEXT]⟩], log) := by
    intro n d e log h
    simp only [runOrchestration]
    rw [if_neg hguard]
    simp only [List.dropLast_concat]
    rw [h]
    simp
  refine ⟨partA, fun H1 H2 => ?_⟩
  obtain ⟨ts, hts, hlenTs⟩ := runStageGo_ok_of gen
    (initialReqs 4 messages ⟨Role.user, mkApiParts (jsTrim inputText) attachedFile⟩) 0
    (fun j r hj => H1 j r (by rw [initialReqs_length] at hj; omega))
  have hlen4 : (initialReqs 4 messages
      ⟨Role.user, mkApiParts (jsTrim inputText) attachedFile⟩).length = 4 :=
    initialReqs_length 4 messages _
  have herr : runStageGo gen 4
      (refinementReqs messages (mkApiParts (jsTrim inputText) attachedFile) ts) =
      Except.error () := by
    refine runStageGo_err_at gen _ 4 1 ?_ ?_
    · rw [refinementReqs_length, hlenTs, hlen4]
      omega
    · intro r
      exact H2 r
  refine ⟨initialReqs 4 messages ⟨Role.user, mkApiParts (jsTrim inputText) attachedFile⟩ ++
    refinementReqs messages (mkApiParts (jsTrim inputText) attachedFile) ts, ?_, ?_, ?_, ?_⟩
  · simp only [orchBody]
    rw [obind_apply_ok _ _ []
      (initialReqs 4 messages ⟨Role.user, mkApiParts (jsTrim inputText) attachedFile⟩) ts
      (by rw [runStage_apply]; simp [hts])]
    rw [obind_apply_err _ _ _ _ ()
      (by rw [runStage_apply, hlen4, herr])]
  · rw [List.map_append, initialReqs_map_sys, refinementReqs_map_sys, hlenTs, hlen4]
  · intro r hr
    have hmem : r.systemInstruction ∈
        (initialReqs 4 messages ⟨Role.user, mkApiParts (jsTrim inputText) attachedFile⟩ ++
          refinementReqs messages (mkApiParts (jsTrim inputText) attachedFile) ts).map
          GenRequest.systemInstruction :=
      List.mem_map_of_mem _ hr
    rw [List.map_append, initialReqs_map_sys, refinementReqs_map_sys, hlenTs, hlen4] at hmem
    rcases List.mem_append.mp hmem with hm | hm
    · rw [List.eq_of_mem_replicate hm]
      decide
    · rw [List.eq_of_mem_replicate hm]
      decide
  · apply partA
    simp only [orchBody]
    rw [obind_apply_ok _ _ []
      (initialReqs 4 messages ⟨Role.user, mkApiParts (jsTrim inputText) attachedFile⟩) ts
      (by rw [runStage_apply]; simp [hts])]
    rw [obind_apply_err _ _ _ _ ()
      (by rw [runStage_apply, hlen4, herr])]

theorem C4_failure_aborts_witness :
    ∃ log : List GenRequest,
      orchBody (fun j _ => if j = 5 then Except.error () else Except.ok "x")
          SkState.absent (fun _ => none) 4 false (jsTrim "hi")
          (mkApiParts (jsTrim "hi") none) [] [] = (Except.error (), log) ∧
      log.map GenRequest.systemInstruction =
        List.replicate 4 INITIAL_SYSTEM_INSTRUCTION ++
          List.replicate 4 REFINEMENT_SYSTEM_INSTRUCTION ∧
      (∀ r ∈ log, r.systemInstruction ≠ SYNTHESIZER_SYSTEM_INSTRUCTION) ∧
      runOrchestration (fun j _ => if j = 5 then Except.error () else Except.ok "x")
          SkState.absent (fun _ => none) 4 false "hi" none [] =
        ([⟨Role.user, mkApiParts (jsTrim "hi") none⟩,
          ⟨Role.model, [textPart FAILURE_MESSAGE_TEXT]⟩], log) := by
  have h := (C4_failure_aborts (fun j _ => if j = 5 then Except.error () else Except.ok "x")
    SkState.absent (fun _ => none) "hi" none [] (by decide)).2
    (fun j r hj => ⟨"x", by simp [Nat.ne_of_lt hj]⟩)
    (fun r => by simp)
  simpa using h

lemma stdInstrSeq_length (n : ℕ) : (stdInstrSeq n).length = stdInstrLen n := by
  simp [stdInstrSeq, stdInstrLen]
  omega

lemma deepInstrSeq_length (n : ℕ) : (deepInstrSeq n).length = deepInstrLen n := by
  simp [deepInstrSeq, deepInstrLen]
  omega

/-- The repair sub-flow appends at most one request to the log. -/
lemma runRepair_log (gen : Oracle) (sk : SkState) (jsNew : String → Option String)
    (hist : List Message) (text : String) (log : List GenRequest) :
    (runRepair gen sk jsNew hist text log).2 = log ∨
      ∃ vr, (runRepair gen sk jsNew hist text log).2 = log ++ [vr] := by
  unfold runRepair
  cases hfi : firstInvalidBlock sk jsNew (scanCodeBlocks text.data) with
  | none => exact Or.inl rfl
  | some p =>
    obtain ⟨b, err⟩ := p
    refine Or.inr ⟨verifierReq hist (String.mk b.lang) (String.mk b.code) err, ?_⟩
    show (obind (callGen gen (verifierReq hist (String.mk b.lang) (String.mk b.code) err))
      (fun correctedCode => opure (String.mk (replaceJS text.data b.full correctedCode.data)))
      log).2 = _
    cases hgen : gen log.length (verifierReq hist (String.mk b.lang) (String.mk b.code) err) with
    | ok t =>
      rw [obind_apply_ok _ _ log
        (log ++ [verifierReq hist (String.mk b.lang) (String.mk b.code) err]) t
        (by unfold callGen; rw [hgen])]
      rfl
    | error e =>
      rw [obind_apply_err _ _ log
        (log ++ [verifierReq hist (String.mk b.lang) (String.mk b.code) err]) e
        (by unfold callGen; rw [hgen])]

/-- The request log of a successful standard-mode body: the stage requests
in stage order, then at most one repair request. -/
lemma orchBody_std_instr (gen : Oracle) (sk : SkState) (jsNew : String → Option String)
    (n : ℕ) (U : String) (A : List MsgPart) (hist : List Message)
    (hok : ∀ j r, ∃ t, gen j r = Except.ok t) :
    (((orchBody gen sk jsNew n false U A hist []).2).map
        GenRequest.systemInstruction).take (stdInstrLen n) = stdInstrSeq n ∧
    ((orchBody gen sk jsNew n false U A hist []).2).length ≤ stdInstrLen n + 1 := by
  obtain ⟨ts, hts, hl1⟩ := runStageGo_ok_of gen (initialReqs n hist ⟨Role.user, A⟩) 0
    (fun j r _ => hok j r)
  obtain ⟨rs, hrs, hl2⟩ := runStageGo_ok_of gen (refinementReqs hist A ts)
    (initialReqs n hist ⟨Role.user, A⟩).length (fun j r _ => hok j r)
  obtain ⟨t3, ht3⟩ := hok
    ((initialReqs n hist ⟨Role.user, A⟩ ++ refinementReqs hist A ts).length)
    (stdSynthesizerReq hist A n rs)
  have hlog : orchBody gen sk jsNew n false U A hist [] =
      runRepair gen sk jsNew hist t3
        (initialReqs n hist ⟨Role.user, A⟩ ++ refinementReqs hist A ts ++
          [stdSynthesizerReq hist A n rs]) := by
    simp only [orchBody, Bool.false_eq_true, if_false]
    rw [obind_apply_ok _ _ [] (initialReqs n hist ⟨Role.user, A⟩) ts
      (by rw [runStage_apply]; simp [hts])]
    rw [obind_apply_ok _ _ _ (initialReqs n hist ⟨Role.user, A⟩ ++ refinementReqs hist A ts)
      rs (by rw [runStage_apply, hrs])]
    rw [obind_apply_ok (opure rs) _
      (initialReqs n hist ⟨Role.user, A⟩ ++ refinementReqs hist A ts)
      (initialReqs n hist ⟨Role.user, A⟩ ++ refinementReqs hist A ts) rs rfl]
    rw [obind_apply_ok _ _ _
      (initialReqs n hist ⟨Role.user, A⟩ ++ refinementReqs hist A ts ++
        [stdSynthesizerReq hist A n rs]) t3
      (by unfold callGen; rw [ht3])]
  have hmap : (initialReqs n hist ⟨Role.user, A⟩ ++ refinementReqs hist A ts ++
      [stdSynthesizerReq hist A n rs]).map GenRequest.systemInstruction = stdInstrSeq n := by
    rw [List.map_append, List.map_append, initialReqs_map_sys, refinementReqs_map_sys,
      hl1, initialReqs_length]
    rfl
  have hlen : (initialReqs n hist ⟨Role.user, A⟩ ++ refinementReqs hist A ts ++
      [stdSynthesizerReq hist A n rs]).length = stdInstrLen n := by
    simp [initialReqs_length, refinementReqs_length, hl1, stdInstrLen]
    omega
  rw [hlog]
  rcases runRepair_log gen sk jsNew hist t3
      (initialReqs n hist ⟨Role.user, A⟩ ++ refinementReqs hist A ts ++
        [stdSynthesizerReq hist A n rs]) with hcase | ⟨vr, hcase⟩
  · rw [hcase, hmap, hlen]
    exact ⟨List.take_of_length_le (by rw [stdInstrSeq_length]), by omega⟩
  · rw [hcase]
    constructor
    · rw [List.map_append, hmap]
      exact List.take_left' (by rw [stdInstrSeq_length])
    · rw [List.length_append, hlen]
      simp

/-- The request log of a successful Deep-mode body: the stage requests in
stage order (initial, refinement, critique, revision, the two parallel
synthesizers, the final synthesizer, the reviewer), then at most one repair
request. -/
lemma orchBody_deep_instr (gen : Oracle) (sk : SkState) (jsNew : String → Option String)
    (n : ℕ) (U : String) (A : List MsgPart) (hist : List Message)
    (hok : ∀ j r, ∃ t, gen j r = Except.ok t) :
    (((orchBody gen sk jsNew n true U A hist []).2).map
        GenRequest.systemInstruction).take (deepInstrLen n) = deepInstrSeq n ∧
    ((orchBody gen sk jsNew n true U A hist []).2).length ≤ deepInstrLen n + 1 := by
  obtain ⟨ts, hts, hl1⟩ := runStageGo_ok_of gen (initialReqs n hist ⟨Role.user, A⟩) 0
    (fun j r _ => hok j r)
  obtain ⟨rs, hrs, hl2⟩ := runStageGo_ok_of gen (refinementReqs hist A ts)
    (initialReqs n hist ⟨Role.user, A⟩).length (fun j r _ => hok j r)
  obtain ⟨cs, hcs, hl3⟩ := runStageGo_ok_of gen (critiqueReqs hist A U rs n)
    (initialReqs n hist ⟨Role.user, A⟩ ++ refinementReqs hist A ts).length
    (fun j r _ => hok j r)
  obtain ⟨vs, hvs, hl4⟩ := runStageGo_ok_of gen (revisionReqs hist A rs cs n)
    (initialReqs n hist ⟨Role.user, A⟩ ++ refinementReqs hist A ts ++
      critiqueReqs hist A U rs n).length
    (fun j r _ => hok j r)
  obtain ⟨ss, hss, hl5⟩ := runStageGo_ok_of gen
    [synthesizerReq hist A (vs.take 3), synthesizerReq hist A ((vs.drop 3).take 3)]
    (initialReqs n hist ⟨Role.user, A⟩ ++ refinementReqs hist A ts ++
      critiqueReqs hist A U rs n ++ revisionReqs hist A rs cs n).length
    (fun j r _ => hok j r)
  obtain ⟨t5, ht5⟩ := hok
    ((initialReqs n hist ⟨Role.user, A⟩ ++ refinementReqs hist A ts ++
      critiqueReqs hist A U rs n ++ revisionReqs hist A rs cs n ++
      [synthesizerReq hist A (vs.take 3), synthesizerReq hist A ((vs.drop 3).take 3)]).length)
    (finalSynthesizerReq hist A (ss.getD 0 "") (ss.getD 1 ""))
  obtain ⟨t6, ht6⟩ := hok
    ((initialReqs n hist ⟨Role.user, A⟩ ++ refinementReqs hist A ts ++
      critiqueReqs hist A U rs n ++ revisionReqs hist A rs cs n ++
      [synthesizerReq hist A (vs.take 3), synthesizerReq hist A ((vs.drop 3).take 3)] ++
      [finalSynthesizerReq hist A (ss.getD 0 "") (ss.getD 1 "")]).length)
    (reviewReq hist U t5)
  have hlog : orchBody gen sk jsNew n true U A hist [] =
      runRepair gen sk jsNew hist t6
        (initialReqs n hist ⟨Role.user, A⟩ ++ refinementReqs hist A ts ++
          critiqueReqs hist A U rs n ++ revisionReqs hist A rs cs n ++
          [synthesizerReq hist A (vs.take 3), synthesizerReq hist A ((vs.drop 3).take 3)] ++
          [finalSynthesizerReq hist A (ss.getD 0 "") (ss.getD 1 "")] ++
          [reviewReq hist U t5]) := by
    simp only [orchBody, eq_self_iff_true, if_true]
    rw [obind_apply_ok _ _ [] (initialReqs n hist ⟨Role.user, A⟩) ts
      (by rw [runStage_apply]; simp [hts])]
    rw [obind_apply_ok _ _ _ (initialReqs n hist ⟨Role.user, A⟩ ++ refinementReqs hist A ts)
      rs (by rw [runStage_apply, hrs])]
    rw [obind_apply_ok _ _ _
      (initialReqs n hist ⟨Role.user, A⟩ ++ refinementReqs hist A ts ++
        critiqueReqs hist A U rs n ++ revisionReqs hist A rs cs n) vs
      (by
        rw [obind_apply_ok _ _ _
          (initialReqs n hist ⟨Role.user, A⟩ ++ refinementReqs hist A ts ++
            critiqueReqs hist A U rs n) cs
          (by rw [runStage_apply, hcs])]
        rw [runStage_apply, hvs])]
    rw [obind_apply_ok _ _ _
      (initialReqs n hist ⟨Role.user, A⟩ ++ refinementReqs hist A ts ++
        critiqueReqs hist A U rs n ++ revisionReqs hist A rs cs n ++
        [synthesizerReq hist A (vs.take 3), synthesizerReq hist A ((vs.drop 3).take 3)] ++
        [finalSynthesizerReq hist A (ss.getD 0 "") (ss.getD 1 "")] ++
        [reviewReq hist U t5]) t6
      (by
        rw [obind_apply_ok _ _ _
          (initialReqs n hist ⟨Role.user, A⟩ ++ refinementReqs hist A ts ++
            critiqueReqs hist A U rs n ++ revisionReqs hist A rs cs n ++
            [synthesizerReq hist A (vs.take 3), synthesizerReq hist A ((vs.drop 3).take 3)]) ss
          (by rw [runStage_apply, hss])]
        rw [obind_apply_ok _ _ _
          (initialReqs n hist ⟨Role.user, A⟩ ++ refinementReqs hist A ts ++
            critiqueReqs hist A U rs n ++ revisionReqs hist A rs cs n ++
            [synthesizerReq hist A (vs.take 3), synthesizerReq hist A ((vs.drop 3).take 3)] ++
            [finalSynthesizerReq hist A (ss.getD 0 "") (ss.getD 1 "")]) t5
          (by unfold callGen; rw [ht5])]
        unfold callGen
        rw [ht6])]
  have hmap : (initialReqs n hist ⟨Role.user, A⟩ ++ refinementReqs hist A ts ++
      critiqueReqs hist A U rs n ++ revisionReqs hist A rs cs n ++
      [synthesizerReq hist A (vs.take 3), synthesizerReq hist A ((vs.drop 3).take 3)] ++
      [finalSynthesizerReq hist A (ss.getD 0 "") (ss.getD 1 "")] ++
      [reviewReq hist U t5]).map GenRequest.systemInstruction = deepInstrSeq n := by
    simp only [List.map_append, initialReqs_map_sys, refinementReqs_map_sys,
      critiqueReqs_map_sys, revisionReqs_map_sys, hl1, hl2,
      refinementReqs_length, initialReqs_length]
    simp [deepInstrSeq, synthesizerReq, finalSynthesizerReq, reviewReq]
  have hlen : (initialReqs n hist ⟨Role.user, A⟩ ++ refinementReqs hist A ts ++
      critiqueReqs hist A U rs n ++ revisionReqs hist A rs cs n ++
      [synthesizerReq hist A (vs.take 3), synthesizerReq hist A ((vs.drop 3).take 3)] ++
      [finalSynthesizerReq hist A (ss.getD 0 "") (ss.getD 1 "")] ++
      [reviewReq hist U t5]).length = deepInstrLen n := by
    simp [initialReqs_length, refinementReqs_length, critiqueReqs_length,
      revisionReqs_length, hl1, hl2, deepInstrLen]
    omega
  rw [hlog]
  rcases runRepair_log gen sk jsNew hist t6
      (initialReqs n hist ⟨Role.user, A⟩ ++ refinementReqs hist A ts ++
        critiqueReqs hist A U rs n ++ revisionReqs hist A rs cs n ++
        [synthesizerReq hist A (vs.take 3), synthesizerReq hist A ((vs.drop 3).take 3)] ++
        [finalSynthesizerReq hist A (ss.getD 0 "") (ss.getD 1 "")] ++
        [reviewReq hist U t5]) with hcase | ⟨vr, hcase⟩
  · rw [hcase, hmap, hlen]
    exact ⟨List.take_of_length_le (by rw [deepInstrSeq_length]), by omega⟩
  · rw [hcase]
    constructor
    · rw [List.map_append, hmap]
      exact List.take_left' (by rw [deepInstrSeq_length])
    · rw [List.length_append, hlen]
      simp

/-- The request log of a run is the request log of its staged body. -/
lemma runOrchestration_log (gen : Oracle) (sk : SkState)
    (jsNew : String → Option String) (numAgents : ℕ) (isDeepThink : Bool)
    (inputText : String) (attachedFile : Option AttachedFile) (messages : List Message)
    (hguard : ¬(jsTrim inputText = "" ∧ attachedFile = none)) :
    (runOrchestration gen sk jsNew numAgents isDeepThink inputText attachedFile messages).2 =
      (orchBody gen sk jsNew numAgents isDeepThink (jsTrim inputText)
        (mkApiParts (jsTrim inputText) attachedFile) messages []).2 := by
  simp only [runOrchestration]
  rw [if_neg hguard]
  simp only [List.dropLast_concat]
  rcases hres : orchBody gen sk jsNew numAgents isDeepThink (jsTrim inputText)
      (mkApiParts (jsTrim inputText) attachedFile) messages [] with ⟨res, log⟩
  cases res <;> rfl

set_option maxRecDepth 2000000 in
/-- C8: the stage topology is a function of the DeepThink flag alone.
`handleSubmit` maps the flag to `(4, false)` or `(6, true)`, and for *any*
input, attachment, history and (successful) completion oracle the issued
instruction sequence opens with the fixed per-mode stage sequence — Standard:
4 Initial, 4 Refinement, 1 Synthesizer; Deep: 6 Initial, 6 Refinement,
6 Critique, 6 Revision, 2 parallel Synthesizer, 1 final Synthesizer,
1 Reviewer — followed by at most one dynamic repair request.  In particular
the request directly after the Initial block is always a Refinement request:
no Elaborate stage exists in either topology. -/
theorem C8_topology (gen : Oracle) (sk : SkState) (jsNew : String → Option String)
    (inputText : String) (attachedFile : Option AttachedFile) (messages : List Message)
    (hok : ∀ j r, ∃ t, gen j r = Except.ok t)
    (hguard : ¬(jsTrim inputText = "" ∧ attachedFile = none)) :
    handleSubmitAgents false = (4, false) ∧
    handleSubmitAgents true = (6, true) ∧
    (((runOrchestration gen sk jsNew 4 false inputText attachedFile messages).2).map
        GenRequest.systemInstruction).take 9 = stdInstrSeq 4 ∧
    ((runOrchestration gen sk jsNew 4 false inputText attachedFile messages).2).length ≤ 10 ∧
    (((runOrchestration gen sk jsNew 6 true inputText attachedFile messages).2).map
        GenRequest.systemInstruction).take 28 = deepInstrSeq 6 ∧
    ((runOrchestration gen sk jsNew 6 true inputText attachedFile messages).2).length ≤ 29 ∧
    (stdInstrSeq 4).take 5 =
      List.replicate 4 INITIAL_SYSTEM_INSTRUCTION ++ [REFINEMENT_SYSTEM_INSTRUCTION] ∧
    (deepInstrSeq 6).take 7 =
      List.replicate 6 INITIAL_SYSTEM_INSTRUCTION ++ [REFINEMENT_SYSTEM_INSTRUCTION] := by
  have hstd := orchBody_std_instr gen sk jsNew 4 (jsTrim inputText)
    (mkApiParts (jsTrim inputText) attachedFile) messages hok
  have hdeep := orchBody_deep_instr gen sk jsNew 6 (jsTrim inputText)
    (mkApiParts (jsTrim inputText) attachedFile) messages hok
  rw [runOrchestration_log gen sk jsNew 4 false inputText attachedFile messages hguard,
    runOrchestration_log gen sk jsNew 6 true inputText attachedFile messages hguard]
  exact ⟨rfl, rfl, hstd.1, hstd.2, hdeep.1, hdeep.2, by decide, by decide⟩

set_option maxRecDepth 2000000 in
theorem C8_topology_witness :
    handleSubmitAgents false = (4, false) ∧
    handleSubmitAgents true = (6, true) ∧
    (((runOrchestration (fun _ _ => Except.ok "x") SkState.absent (fun _ => none)
        4 false "hi" none []).2).map GenRequest.systemInstruction).take 9 =
      stdInstrSeq 4 := by
  have h := C8_topology (fun _ _ => Except.ok "x") SkState.absent (fun _ => none)
    "hi" none [] (fun _ r => ⟨"x", rfl⟩) (by decide)
  exact ⟨h.1, h.2.1, h.2.2.1⟩

set_option maxRecDepth 2000000 in
/-- C8 counterexample to the claimed Elaboration topology: at a concrete
invocation each of the two reachable (agent count, DeepThink) pairs —
`(4, false)` and `(6, true)`, the only pairs `handleSubmit` produces —
issues exactly the Standard resp. Deep instruction sequence; every issued
instruction is one of the six stage instructions of those two topologies and
the request after the Initial block is a Refinement request, so no
invocation runs an Elaborate stage between Initial and Refine. -/
theorem C8_topology_cex :
    ((runOrchestration (fun _ _ => Except.ok "x") SkState.absent (fun _ => none)
        (handleSubmitAgents false).1 (handleSubmitAgents false).2 "hi" none []).2).map
      GenRequest.systemInstruction = stdInstrSeq 4 ∧
    ((runOrchestration (fun _ _ => Except.ok "x") SkState.absent (fun _ => none)
        (handleSubmitAgents true).1 (handleSubmitAgents true).2 "hi" none []).2).map
      GenRequest.systemInstruction = deepInstrSeq 6 ∧
    (∀ s ∈ stdInstrSeq 4 ++ deepInstrSeq 6,
      s ∈ [INITIAL_SYSTEM_INSTRUCTION, REFINEMENT_SYSTEM_INSTRUCTION,
        CRITIQUE_AGENT_SYSTEM_INSTRUCTION, REVISION_AGENT_SYSTEM_INSTRUCTION,
        SYNTHESIZER_SYSTEM_INSTRUCTION, FINAL_REVIEW_SYSTEM_INSTRUCTION]) ∧
    (stdInstrSeq 4).take 5 =
      List.replicate 4 INITIAL_SYSTEM_INSTRUCTION ++ [REFINEMENT_SYSTEM_INSTRUCTION] ∧
    (deepInstrSeq 6).take 7 =
      List.replicate 6 INITIAL_SYSTEM_INSTRUCTION ++ [REFINEMENT_SYSTEM_INSTRUCTION] := by
  refine ⟨by decide, by decide, by decide, by decide, by decide⟩

/-! ### C2: the single-shot code-repair sub-flow -/

lemma findFenceSplit_decompose : ∀ (u p q : List Char),
    findFenceSplit u = some (p, q) → u = p ++ fenceCs ++ q := by
  intro u
  induction u with
  | nil => intro p q h; simp [findFenceSplit] at h
  | cons c cs ih =>
    intro p q h
    unfold findFenceSplit at h
    by_cases hp : fenceCs.isPrefixOf (c :: cs)
    · rw [if_pos hp] at h
      simp only [Option.some.injEq, Prod.mk.injEq] at h
      obtain ⟨rfl, rfl⟩ := h
      obtain ⟨t, ht⟩ := List.isPrefixOf_iff_prefix.mp hp
      have hdrop : t = cs.drop 2 := by
        have h2 := List.drop_left fenceCs t
        rw [ht] at h2
        exact h2.symm
      simp only [List.nil_append]
      rw [← hdrop]
      exact ht.symm
    · rw [if_neg hp] at h
      cases hrec : findFenceSplit cs with
      | none => rw [hrec] at h; cases h
      | some pq =>
        obtain ⟨p0, q0⟩ := pq
        rw [hrec] at h
        simp only [Option.some.injEq, Prod.mk.injEq] at h
        obtain ⟨rfl, rfl⟩ := h
        have := ih p0 q0 hrec
        simp [this]

lemma matchFenceAt_spec (s : List Char) (b : FencedBlock)
    (h : matchFenceAt s = some b) :
    s = b.full ++ b.rest ∧
    b.full = fenceCs ++ b.lang ++ '\n' :: (b.code ++ fenceCs) ∧
    b.lang ≠ [] := by
  unfold matchFenceAt at h
  by_cases hp : fenceCs.isPrefixOf s
  swap
  · rw [if_neg hp] at h; cases h
  rw [if_pos hp] at h
  simp only [] at h
  by_cases hw : (s.drop 3).takeWhile isWordChar = []
  · rw [if_pos hw] at h; cases h
  rw [if_neg hw] at h
  split at h
  swap
  · cases h
  rename_i u heq
  split at h
  swap
  · cases h
  rename_i body rest hff
  have hb : b = ⟨fenceCs ++ (s.drop 3).takeWhile isWordChar ++
      '\n' :: (body ++ fenceCs), (s.drop 3).takeWhile isWordChar, body, rest⟩ := by
    injection h with h'
    exact h'.symm
  subst hb
  refine ⟨?_, by simp, hw⟩
  obtain ⟨t, ht⟩ := List.isPrefixOf_iff_prefix.mp hp
  have hdrop3 : s.drop 3 = t := by
    rw [← ht]
    exact List.drop_left fenceCs t
  have htw : s.drop 3 =
      (s.drop 3).takeWhile isWordChar ++ '\n' :: u := by
    conv_lhs => rw [← List.take_append_drop ((s.drop 3).takeWhile isWordChar).length (s.drop 3)]
    rw [heq]
    congr 1
    exact (List.prefix_iff_eq_take.mp (List.takeWhile_prefix _)).symm
  have hu : u = body ++ fenceCs ++ rest := findFenceSplit_decompose u body rest hff
  have hs3 : s = fenceCs ++ s.drop 3 := by
    rw [hdrop3, ht]
  simp only []
  conv_lhs => rw [hs3, htw, hu]
  simp

lemma fenceCs_length : fenceCs.length = 3 := rfl

lemma matchFenceAt_rest_lt (s : List Char) (b : FencedBlock)
    (h : matchFenceAt s = some b) : b.rest.length < s.length := by
  obtain ⟨hs, hfull, hlang⟩ := matchFenceAt_spec s b h
  have : b.full.length ≥ 4 := by
    rw [hfull]
    simp [fenceCs_length]
    omega
  rw [hs, List.length_append]
  omega

lemma scanGo_nil (f : ℕ) : scanGo f [] = [] := by
  cases f <;> rfl

lemma scanGo_fuel : ∀ (f : ℕ) (s : List Char) (f' : ℕ),
    s.length ≤ f → s.length ≤ f' → scanGo f s = scanGo f' s := by
  intro f
  induction f with
  | zero =>
    intro s f' hf _
    have : s = [] := List.eq_nil_of_length_eq_zero (Nat.le_zero.mp hf)
    subst this
    rw [scanGo_nil, scanGo_nil]
  | succ f1 ih =>
    intro s f' hf hf'
    cases s with
    | nil => rw [scanGo_nil, scanGo_nil]
    | cons c cs =>
      cases f' with
      | zero => simp at hf'
      | succ f2 =>
        show (match matchFenceAt (c :: cs) with
          | some b => b :: scanGo f1 b.rest
          | none => scanGo f1 cs) =
          (match matchFenceAt (c :: cs) with
          | some b => b :: scanGo f2 b.rest
          | none => scanGo f2 cs)
        cases hm : matchFenceAt (c :: cs) with
        | some b =>
          have hlt := matchFenceAt_rest_lt _ _ hm
          simp only []
          rw [ih b.rest f2 (by simp at hlt hf ⊢; omega) (by simp at hlt hf' ⊢; omega)]
        | none =>
          simp only []
          rw [ih cs f2 (by simp at hf ⊢; omega) (by simp at hf' ⊢; omega)]

/-- Every scanned block decomposes the text it was scanned from. -/
lemma scanGo_block_decompose : ∀ (f : ℕ) (s : List Char) (b : FencedBlock),
    b ∈ scanGo f s → ∃ P, s = P ++ b.full ++ b.rest := by
  intro f
  induction f with
  | zero => intro s b hb; simp [scanGo] at hb
  | succ f1 ih =>
    intro s b hb
    cases s with
    | nil => rw [scanGo_nil] at hb; cases hb
    | cons c cs =>
      have hb' : b ∈ (match matchFenceAt (c :: cs) with
          | some b0 => b0 :: scanGo f1 b0.rest
          | none => scanGo f1 cs) := hb
      cases hm : matchFenceAt (c :: cs) with
      | some b0 =>
        rw [hm] at hb'
        rcases List.mem_cons.mp hb' with rfl | hmem
        · exact ⟨[], by simpa using (matchFenceAt_spec _ _ hm).1⟩
        · obtain ⟨P, hP⟩ := ih b0.rest b hmem
          refine ⟨b0.full ++ P, ?_⟩
          rw [(matchFenceAt_spec _ _ hm).1, hP]
          simp
      | none =>
        rw [hm] at hb'
        obtain ⟨P, hP⟩ := ih cs b hb'
        exact ⟨c :: P, by simp [hP]⟩

/-- Splitting the scan at a block: the text up to it, and every later block
lies (verbatim) inside that block's scan remainder. -/
lemma scanGo_split : ∀ (f : ℕ) (s : List Char) (pre : List FencedBlock)
    (b : FencedBlock) (post : List FencedBlock),
    scanGo f s = pre ++ b :: post →
    (∃ P, s = P ++ b.full ++ b.rest) ∧ ∀ b' ∈ post, b'.full <:+: b.rest := by
  intro f
  induction f with
  | zero =>
    intro s pre b post h
    simp only [scanGo] at h
    exact absurd h.symm (List.append_ne_nil_of_right_ne_nil pre (by simp))
  | succ f1 ih =>
    intro s pre b post h
    cases s with
    | nil =>
      rw [scanGo_nil] at h
      exact absurd h.symm (List.append_ne_nil_of_right_ne_nil pre (by simp))
    | cons c cs =>
      have h' : (match matchFenceAt (c :: cs) with
          | some b0 => b0 :: scanGo f1 b0.rest
          | none => scanGo f1 cs) = pre ++ b :: post := h
      cases hm : matchFenceAt (c :: cs) with
      | some b0 =>
        rw [hm] at h'
        cases pre with
        | nil =>
          simp only [List.nil_append, List.cons.injEq] at h'
          obtain ⟨rfl, hpost⟩ := h'
          refine ⟨⟨[], by simpa using (matchFenceAt_spec _ _ hm).1⟩, ?_⟩
          intro b' hb'
          rw [← hpost] at hb'
          obtain ⟨P, hP⟩ := scanGo_block_decompose f1 b0.rest b' hb'
          exact ⟨P, b'.rest, hP.symm⟩
        | cons p0 pre' =>
          simp only [List.cons_append, List.cons.injEq] at h'
          obtain ⟨rfl, htail⟩ := h'
          obtain ⟨⟨P, hP⟩, hlater⟩ := ih b0.rest pre' b post htail
          refine ⟨⟨b0.full ++ P, ?_⟩, hlater⟩
          rw [(matchFenceAt_spec _ _ hm).1, hP]
          simp
      | none =>
        rw [hm] at h'
        obtain ⟨⟨P, hP⟩, hlater⟩ := ih cs pre b post h'
        exact ⟨⟨c :: P, by simp [hP]⟩, hlater⟩

lemma splitOcc_sound : ∀ (s pat p q : List Char),
    splitOcc pat s = some (p, q) → s = p ++ pat ++ q := by
  intro s
  induction s with
  | nil =>
    intro pat p q h
    unfold splitOcc at h
    by_cases hp : pat = []
    · rw [if_pos hp] at h
      simp only [Option.some.injEq, Prod.mk.injEq] at h
      obtain ⟨rfl, rfl⟩ := h
      simp [hp]
    · rw [if_neg hp] at h
      cases h
  | cons c cs ih =>
    intro pat p q h
    unfold splitOcc at h
    by_cases hp : pat.isPrefixOf (c :: cs)
    · rw [if_pos hp] at h
      simp only [Option.some.injEq, Prod.mk.injEq] at h
      obtain ⟨rfl, rfl⟩ := h
      obtain ⟨t, ht⟩ := List.isPrefixOf_iff_prefix.mp hp
      have hdrop : (c :: cs).drop pat.length = t := by
        rw [← ht]
        exact List.drop_left pat t
      rw [List.nil_append, hdrop]
      exact ht.symm
    · rw [if_neg hp] at h
      cases hrec : splitOcc pat cs with
      | none => rw [hrec] at h; cases h
      | some pq =>
        obtain ⟨p0, q0⟩ := pq
        rw [hrec] at h
        simp only [Option.some.injEq, Prod.mk.injEq] at h
        obtain ⟨rfl, rfl⟩ := h
        simp [ih pat p0 q0 hrec]

lemma splitOcc_minimal : ∀ (s pat p q : List Char),
    splitOcc pat s = some (p, q) →
    ∀ p' q', s = p' ++ pat ++ q' → p.length ≤ p'.length := by
  intro s
  induction s with
  | nil =>
    intro pat p q h p' q' hs
    unfold splitOcc at h
    by_cases hp : pat = []
    · rw [if_pos hp] at h
      simp only [Option.some.injEq, Prod.mk.injEq] at h
      obtain ⟨rfl, rfl⟩ := h
      simp
    · rw [if_neg hp] at h
      cases h
  | cons c cs ih =>
    intro pat p q h p' q' hs
    unfold splitOcc at h
    by_cases hp : pat.isPrefixOf (c :: cs)
    · rw [if_pos hp] at h
      simp only [Option.some.injEq, Prod.mk.injEq] at h
      obtain ⟨rfl, rfl⟩ := h
      simp
    · rw [if_neg hp] at h
      cases p' with
      | nil =>
        exfalso
        apply hp
        refine List.isPrefixOf_iff_prefix.mpr ⟨q', ?_⟩
        simpa using hs.symm
      | cons c' p'' =>
        cases hrec : splitOcc pat cs with
        | none => rw [hrec] at h; cases h
        | some pq =>
          obtain ⟨p0, q0⟩ := pq
          rw [hrec] at h
          simp only [Option.some.injEq, Prod.mk.injEq] at h
          obtain ⟨rfl, rfl⟩ := h
          simp only [List.cons_append, List.cons.injEq] at hs
          obtain ⟨rfl, hcs⟩ := hs
          have := ih pat p0 q0 hrec p'' q' hcs
          simp only [List.length_cons]
          omega

lemma splitOcc_complete : ∀ (P : List Char) (pat Q : List Char),
    ∃ pq, splitOcc pat (P ++ pat ++ Q) = some pq := by
  intro P
  induction P with
  | nil =>
    intro pat Q
    cases hs : (pat ++ Q : List Char) with
    | nil =>
      obtain ⟨rfl, rfl⟩ := List.append_eq_nil.mp hs
      exact ⟨([], []), by simp [splitOcc]⟩
    | cons c cs =>
      refine ⟨([], (c :: cs).drop pat.length), ?_⟩
      simp only [List.nil_append, hs]
      unfold splitOcc
      rw [if_pos (List.isPrefixOf_iff_prefix.mpr ⟨Q, hs⟩)]
  | cons c P' ih =>
    intro pat Q
    simp only [List.cons_append]
    unfold splitOcc
    by_cases hp : pat.isPrefixOf (c :: (P' ++ pat ++ Q))
    · exact ⟨([], (c :: (P' ++ pat ++ Q)).drop pat.length), by rw [if_pos hp]⟩
    · rw [if_neg hp]
      obtain ⟨⟨p0, q0⟩, hrec⟩ := ih pat Q
      exact ⟨(c :: p0, q0), by rw [hrec]⟩

lemma suffix_of_suffix_length_le {Q R s : List Char}
    (hQ : Q <:+ s) (hR : R <:+ s) (hlen : Q.length ≤ R.length) : Q <:+ R := by
  obtain ⟨u, hu⟩ := hQ
  obtain ⟨v, hv⟩ := hR
  have hvu : v.length ≤ u.length := by
    have h1 := congrArg List.length hu
    have h2 := congrArg List.length hv
    simp only [List.length_append] at h1 h2
    omega
  refine ⟨u.drop v.length, ?_⟩
  have hdrop := congrArg (List.drop v.length) (hu.trans hv.symm)
  rw [List.drop_append_of_le_length hvu, List.drop_left] at hdrop
  exact hdrop

lemma getSubstitution_no_dollar (m b a : List Char) :
    ∀ (repl : List Char), dollarC ∉ repl →
      getSubstitution m b a repl = repl := by
  intro repl
  induction repl with
  | nil => intro _; rfl
  | cons c rest ih =>
    intro hmem
    cases rest with
    | nil => rfl
    | cons d rest' =>
      have hc : ¬c = dollarC := fun hh => hmem (by simp [hh])
      show (if c = dollarC then _ else
        c :: getSubstitution m b a (d :: rest')) = c :: d :: rest'
      rw [if_neg hc, ih (fun hh => hmem (by simp [hh]))]

lemma firstInvalidBlock_eq (sk : SkState) (jsNew : String → Option String)
    (b : FencedBlock) (err : String) :
    ∀ (bsPre bsPost : List FencedBlock),
      (∀ x ∈ bsPre, checkCodeSyntax sk jsNew (String.mk x.lang) (String.mk x.code) = none) →
      checkCodeSyntax sk jsNew (String.mk b.lang) (String.mk b.code) = some err →
      firstInvalidBlock sk jsNew (bsPre ++ b :: bsPost) = some (b, err) := by
  intro bsPre
  induction bsPre with
  | nil =>
    intro bsPost _ hb
    unfold firstInvalidBlock
    rw [List.nil_append]
    show (match checkCodeSyntax sk jsNew (String.mk b.lang) (String.mk b.code) with
      | some err => some (b, err)
      | none => firstInvalidBlock sk jsNew bsPost) = some (b, err)
    rw [hb]
  | cons x t ih =>
    intro bsPost hpre hb
    show (match checkCodeSyntax sk jsNew (String.mk x.lang) (String.mk x.code) with
      | some err => some (x, err)
      | none => firstInvalidBlock sk jsNew (t ++ b :: bsPost)) = some (b, err)
    rw [hpre x (by simp)]
    exact ih bsPost (fun y hy => hpre y (by simp [hy])) hb

/-- C2 (amended): on a candidate final text whose scanned blocks split into
valid ones, a first invalid block `b`, and later blocks (among them further
invalid ones), the repair sub-flow issues exactly one correction request —
for `b` — and replaces the first occurrence of `b`'s matched text with the
correction's output processed through the JS replacement-pattern
substitution, which is the raw output whenever that output contains no
dollar character; the text from `b`'s match onward is preserved, so every
later block keeps its original text verbatim in the result. -/
theorem C2_single_shot_repair (gen : Oracle) (sk : SkState)
    (jsNew : String → Option String) (hist : List Message) (text : String)
    (bsPre bsPost : List FencedBlock) (b : FencedBlock) (err corrected : String)
    (hscan : scanCodeBlocks text.data = bsPre ++ b :: bsPost)
    (hpre : ∀ x ∈ bsPre,
      checkCodeSyntax sk jsNew (String.mk x.lang) (String.mk x.code) = none)
    (hb : checkCodeSyntax sk jsNew (String.mk b.lang) (String.mk b.code) = some err)
    (hmulti : ∃ b2 ∈ bsPost,
      (checkCodeSyntax sk jsNew (String.mk b2.lang) (String.mk b2.code)).isSome = true)
    (hgen : gen 0 (verifierReq hist (String.mk b.lang) (String.mk b.code) err) =
      Except.ok corrected) :
    runRepair gen sk jsNew hist text [] =
      (Except.ok (String.mk (replaceJS text.data b.full corrected.data)),
        [verifierReq hist (String.mk b.lang) (String.mk b.code) err]) ∧
    ∃ pre post,
      splitOcc b.full text.data = some (pre, post) ∧
      text.data = pre ++ b.full ++ post ∧
      replaceJS text.data b.full corrected.data =
        pre ++ getSubstitution b.full pre post corrected.data ++ post ∧
      (dollarC ∉ corrected.data →
        replaceJS text.data b.full corrected.data = pre ++ corrected.data ++ post) ∧
      (∀ b' ∈ bsPost, b'.full <:+: post) ∧
      (∀ b' ∈ bsPost, b'.full <:+: replaceJS text.data b.full corrected.data) := by
  have hfi : firstInvalidBlock sk jsNew (scanCodeBlocks text.data) = some (b, err) := by
    rw [hscan]
    exact firstInvalidBlock_eq sk jsNew b err bsPre bsPost hpre hb
  constructor
  · unfold runRepair
    rw [hfi]
    show (obind (callGen gen (verifierReq hist (String.mk b.lang) (String.mk b.code) err))
      (fun correctedCode =>
        opure (String.mk (replaceJS text.data b.full correctedCode.data))) []) = _
    rw [obind_apply_ok _ _ []
      ([] ++ [verifierReq hist (String.mk b.lang) (String.mk b.code) err]) corrected
      (by unfold callGen; rw [show ([] : List GenRequest).length = 0 from rfl, hgen])]
    rfl
  · obtain ⟨⟨P, hP⟩, hlater⟩ :=
      scanGo_split text.data.length text.data bsPre b bsPost hscan
    obtain ⟨pq, hpq⟩ := splitOcc_complete P b.full b.rest
    rw [← hP] at hpq
    obtain ⟨pre, post⟩ := pq
    have hsound := splitOcc_sound text.data b.full pre post hpq
    have hmin := splitOcc_minimal text.data b.full pre post hpq P b.rest hP
    have hpostsuf : post <:+ text.data := ⟨pre ++ b.full, by rw [hsound]⟩
    have hrestsuf : b.rest <:+ text.data := ⟨P ++ b.full, hP.symm⟩
    have hlenle : b.rest.length ≤ post.length := by
      have h1 := congrArg List.length hP
      have h2 := congrArg List.length hsound
      simp only [List.length_append] at h1 h2
      omega
    have hrestpost : b.rest <:+ post :=
      suffix_of_suffix_length_le hrestsuf hpostsuf hlenle
    have hrepl : replaceJS text.data b.full corrected.data =
        pre ++ getSubstitution b.full pre post corrected.data ++ post := by
      unfold replaceJS
      rw [hpq]
    have hinfixpost : ∀ b' ∈ bsPost, b'.full <:+: post := by
      intro b' hb'
      exact (hlater b' hb').trans hrestpost.isInfix
    refine ⟨pre, post, hpq, hsound, hrepl, ?_, hinfixpost, ?_⟩
    · intro hnd
      rw [hrepl, getSubstitution_no_dollar b.full pre post corrected.data hnd]
    · intro b' hb'
      refine (hinfixpost b' hb').trans ?_
      rw [hrepl]
      exact List.IsSuffix.isInfix
        (show post <:+ pre ++ getSubstitution b.full pre post corrected.data ++ post from
          ⟨pre ++ getSubstitution b.full pre post corrected.data, rfl⟩)

set_option maxRecDepth 2000000 in
theorem C2_single_shot_repair_witness :
    runRepair (fun _ _ => Except.ok "FIXED") SkState.absent
      (fun code => if code = "bad1\n" then some "E1"
        else if code = "bad2\n" then some "E2" else none)
      [] "```js\nbad1\n``` mid ```js\nbad2\n```" [] =
      (Except.ok "FIXED mid ```js\nbad2\n```", [verifierReq [] "js" "bad1\n" "E1"]) := by
  have h := C2_single_shot_repair (fun _ _ => Except.ok "FIXED") SkState.absent
    (fun code => if code = "bad1\n" then some "E1"
      else if code = "bad2\n" then some "E2" else none)
    [] "```js\nbad1\n``` mid ```js\nbad2\n```"
    [] [⟨("```js\nbad2\n```").data, ("js").data, ("bad2\n").data, []⟩]
    ⟨("```js\nbad1\n```").data, ("js").data, ("bad1\n").data, (" mid ```js\nbad2\n```").data⟩
    "E1" "FIXED" (by decide) (by intro x hx; cases hx) (by decide)
    ⟨⟨("```js\nbad2\n```").data, ("js").data, ("bad2\n").data, []⟩, by decide⟩ rfl
  exact h.1.trans (by decide)

set_option maxRecDepth 2000000 in
/-- C2 counterexample to "replaced by the correction's raw output": with two
invalid `js` blocks and a correction whose raw output is the two characters
`$&`, the JS string-`replace` substitution expands `$&` to the matched block
itself, so the output text equals the original — the first invalid block is
*not* replaced by the raw output — while exactly one correction request is
still issued. -/
theorem C2_dollar_pattern_cex :
    (runRepair (fun _ _ => Except.ok "$&") SkState.absent (fun _ => some "E") []
        "```js\nbad1\n``` and ```js\nbad2\n```" []).1 =
      Except.ok "```js\nbad1\n``` and ```js\nbad2\n```" ∧
    ((runRepair (fun _ _ => Except.ok "$&") SkState.absent (fun _ => some "E") []
        "```js\nbad1\n``` and ```js\nbad2\n```" []).2).length = 1 ∧
    ("```js\nbad1\n``` and ```js\nbad2\n```" : String) ≠ "$& and ```js\nbad2\n```" := by
  exact ⟨by decide, by decide, by decide⟩
